import Mathlib

/-!
Static file responder of `app/main.go`.

A shallow embedding of the GET path of the server (`handleHTTPRequest`,
`handleGetRequest`, `getFileModTime`, `getFileETag`, `serveFile`) together with
the pieces of the Go runtime and standard library they call.

Conventions of the embedding:

* a Go `string` and a Go `[]byte` are both lists of bytes (`GoString`);
* a Go `int` is an `Int` (64-bit platform); the one subtraction of the program
  is reduced to the 64-bit two's-complement range with `wrapInt64`;
* the file system is a snapshot taken for the duration of one request;
* `crypto/md5`, `compress/gzip` and `time.Format` are not part of the
  repository and are parameters of the model (`Lib`);
* the largest offset that the file system accepts in a seek is a parameter
  as well (`Lib.maxSeekOffset`); a seek beyond it fails and the program drops
  the error;
* a run-time panic of the handler (`path[1:]` on the empty string) is `none`.
-/

namespace FileServer

/-! ## Bytes and strings -/

/-- One octet. -/
abbrev Byte := Fin 256

/-- Go strings and byte slices: finite sequences of octets. -/
abbrev GoString := List Byte

/-- The bytes of an ASCII literal of the source. -/
def str (s : String) : GoString :=
  s.toList.map (fun c => Fin.ofNat c.toNat)

/-! ## `net/http`: header maps and the response writer -/

/-- ASCII lower-case to upper-case, other bytes unchanged. -/
def upperByte (c : Byte) : Byte :=
  if 97 ≤ c.val ∧ c.val ≤ 122 then Fin.ofNat (c.val - 32) else c

/-- ASCII upper-case to lower-case, other bytes unchanged. -/
def lowerByte (c : Byte) : Byte :=
  if 65 ≤ c.val ∧ c.val ≤ 90 then Fin.ofNat (c.val + 32) else c

/-- The letter-case pass of `textproto.CanonicalMIMEHeaderKey`: upper case at
the start and after each dash, lower case elsewhere.  `upper` is the flag of
the Go loop. -/
def canonLoop : Bool → GoString → GoString
  | _, [] => []
  | upper, c :: rest =>
    let c1 := if upper then upperByte c else lowerByte c
    c1 :: canonLoop (c1 = 45) rest

/-- Canonical form of a header key made of letters, digits and dashes (every
key of the program is one). -/
def canonicalMIMEHeaderKey (k : GoString) : GoString :=
  canonLoop true k

/-- The type `http.Header`, a map from canonical keys to value lists, kept as
an association list with at most one entry per key. -/
abbrev Header := List (GoString × List GoString)

/-- The method `Header.Get`: first value stored under the canonical key, or the empty string. -/
def Header.get (h : Header) (key : GoString) : GoString :=
  match h.lookup (canonicalMIMEHeaderKey key) with
  | some (v :: _) => v
  | _ => []

/-- Whether the map has an entry for the key. -/
def Header.has (h : Header) (key : GoString) : Bool :=
  (h.lookup (canonicalMIMEHeaderKey key)).isSome

/-- The method `Header.Del`. -/
def Header.del (h : Header) (key : GoString) : Header :=
  h.filter (fun e => e.1 ≠ canonicalMIMEHeaderKey key)

/-- The method `Header.Set`: replaces whatever is stored under the key. -/
def Header.set (h : Header) (key value : GoString) : Header :=
  (canonicalMIMEHeaderKey key, [value]) :: Header.del h key

/-- State of an `http.ResponseWriter` while the handler runs. -/
structure ResponseWriter where
  /-- The map returned by `w.Header()`. -/
  header : Header
  /-- Whether `WriteHeader` has run. -/
  wroteHeader : Bool
  /-- Status code passed to the first `WriteHeader`. -/
  status : Nat
  /-- Copy of the header map taken by the first `WriteHeader`. -/
  sentHeader : Header
  /-- Body bytes accepted so far. -/
  body : GoString
deriving DecidableEq, Repr

/-- A fresh response writer, as the server hands it to the handler. -/
def ResponseWriter.new : ResponseWriter :=
  { header := [], wroteHeader := false, status := 0, sentHeader := [], body := [] }

/-- The call `w.Header().Set(key, value)`. -/
def ResponseWriter.setHeader (w : ResponseWriter) (key value : GoString) : ResponseWriter :=
  { w with header := w.header.set key value }

/-- The call `w.WriteHeader(code)`: only the first call counts and it freezes
the headers. -/
def ResponseWriter.writeHeader (w : ResponseWriter) (code : Nat) : ResponseWriter :=
  if w.wroteHeader then w
  else { w with wroteHeader := true, status := code, sentHeader := w.header }

/-- Statuses that admit a body (`bodyAllowedForStatus`). -/
def bodyAllowedForStatus (status : Nat) : Bool :=
  if 100 ≤ status ∧ status ≤ 199 then false
  else if status = 204 then false
  else if status = 304 then false
  else true

/-- The call `w.Write(data)`: an implicit `WriteHeader(200)` when none has
run, then the data is appended when the status admits a body. -/
def ResponseWriter.write (w : ResponseWriter) (data : GoString) : ResponseWriter :=
  let w1 := w.writeHeader 200
  if bodyAllowedForStatus w1.status then { w1 with body := w1.body ++ data } else w1

/-- What the client receives once the handler has returned. -/
structure Response where
  status : Nat
  header : Header
  body : GoString
deriving DecidableEq, Repr

/-- End of the handler: a response that was never started goes out with 200. -/
def ResponseWriter.finish (w : ResponseWriter) : Response :=
  let w1 := w.writeHeader 200
  { status := w1.status, header := w1.sentHeader, body := w1.body }

/-! ## `os`: the file system seen by one request -/

/-- What a path names: a regular file or a directory, with its modification
time (seconds) and whether the process may open it for reading. -/
inductive Node where
  | regular (content : GoString) (modTime : Int) (readable : Bool)
  | directory (modTime : Int) (readable : Bool)
deriving DecidableEq, Repr

/-- Outcome of walking a path: `ENOENT`, any other failure of the walk (a
component that is not a directory, no search permission, ...), or a node. -/
inductive Lookup where
  | notExist
  | failure
  | found (node : Node)
deriving DecidableEq, Repr

/-- The file system during one request. -/
abbrev FileSystem := GoString → Lookup

/-- Errors of the `os` package, as far as `os.IsNotExist` tells them apart. -/
inductive OsError where
  | notExist
  | other
deriving DecidableEq, Repr

/-- The call `os.Stat(name)`, reduced to the modification time of the node. -/
def osStat (fs : FileSystem) (name : GoString) : Except OsError Int :=
  match fs name with
  | .notExist => .error .notExist
  | .failure => .error .other
  | .found (.regular _ t _) => .ok t
  | .found (.directory t _) => .ok t

/-- The predicate `os.IsNotExist(err)` on the error half of a result (false for a nil error). -/
def isNotExist {α : Type} : Except OsError α → Bool
  | .error .notExist => true
  | _ => false

/-- The call `os.ReadFile(name)`: only a readable regular file has data. -/
def osReadFile (fs : FileSystem) (name : GoString) : Except OsError GoString :=
  match fs name with
  | .notExist => .error .notExist
  | .failure => .error .other
  | .found (.regular c _ true) => .ok c
  | .found _ => .error .other

/-- An open `*os.File`: the data behind it (`none` for a directory, whose
reads fail) and the read offset. -/
structure File where
  data : Option GoString
  offset : Nat
deriving DecidableEq, Repr

/-- The call `os.Open(name)`. -/
def osOpen (fs : FileSystem) (name : GoString) : Except OsError File :=
  match fs name with
  | .notExist => .error .notExist
  | .failure => .error .other
  | .found (.regular c _ true) => .ok { data := some c, offset := 0 }
  | .found (.directory _ true) => .ok { data := none, offset := 0 }
  | .found _ => .error .other

/-- The call `file.Seek(offset, io.SeekStart)`, its error dropped as in the
source.  The system call refuses (`EINVAL`) a negative offset and an offset
above `maxOffset`, the largest one the file system accepts; a refused call
leaves the read position where it was. -/
def File.seekStart (f : File) (maxOffset : Nat) (offset : Int) : File :=
  if offset < 0 ∨ (maxOffset : Int) < offset then f else { f with offset := offset.toNat }

/-- Everything a reader gets from the file until end-of-file or error. -/
def File.remaining (f : File) : GoString :=
  match f.data with
  | some c => c.drop f.offset
  | none => []

/-! ## `io` -/

/-- A Go `int64` computed from an unbounded integer (two's complement). -/
def wrapInt64 (x : Int) : Int :=
  (x + 2 ^ 63) % 2 ^ 64 - 2 ^ 63

/-- Bytes moved by `io.Copy(dst, file)`. -/
def copyData (f : File) : GoString :=
  f.remaining

/-- Bytes moved by `io.CopyN(dst, file, n)`: at most `n`, none for `n ≤ 0`. -/
def copyNData (f : File) (n : Int) : GoString :=
  f.remaining.take n.toNat

/-- Writing copied bytes to the response: `Write` runs only when bytes were read. -/
def ResponseWriter.copyFrom (w : ResponseWriter) (data : GoString) : ResponseWriter :=
  if data = [] then w else w.write data

/-! ## Library and platform parameters -/

/-- Functions of the Go standard library that the model does not unfold, and
the one limit of the platform that the program can reach. -/
structure Lib where
  /-- Largest offset that `lseek` accepts on the file system of the served
  directory (17592186040320 on ext4 with 4 KiB blocks). -/
  maxSeekOffset : Nat
  /-- The function `md5.Sum`, of result type `[16]byte`. -/
  md5Sum : GoString → { d : GoString // d.length = 16 }
  /-- Everything a `gzip.Writer` has emitted at `Close` for the data written to it. -/
  gzip : GoString → GoString
  /-- The call `t.Format(time.RFC1123)`. -/
  formatRFC1123 : Int → GoString

/-! ## `encoding/hex` -/

/-- Digit of `hextable = "0123456789abcdef"`. -/
def hexDigit (n : Nat) : Byte :=
  if n < 10 then Fin.ofNat (48 + n) else Fin.ofNat (87 + n)

/-- The function `hex.EncodeToString`. -/
def hexEncodeToString : GoString → GoString
  | [] => []
  | b :: rest => hexDigit (b.val / 16) :: hexDigit (b.val % 16) :: hexEncodeToString rest

/-! ## `path/filepath` -/

/-- The slash-separated elements of a path (`strings.Split(p, "/")`). -/
def splitSlash : GoString → List GoString
  | [] => [[]]
  | c :: rest =>
    if c = 47 then [] :: splitSlash rest
    else
      match splitSlash rest with
      | [] => [[c]]
      | seg :: segs => (c :: seg) :: segs

/-- The function `strings.Join(elems, "/")`. -/
def joinSlash : List GoString → GoString
  | [] => []
  | [e] => e
  | e :: rest => e ++ 47 :: joinSlash rest

/-- One element of the scan of `filepath.Clean`; `out` holds the elements
written so far, last one first.  Empty and `.` elements are skipped; `..`
removes the last ordinary element, and where there is none it is dropped on a
rooted path and kept on a relative one. -/
def cleanStep (rooted : Bool) (out : List GoString) (seg : GoString) : List GoString :=
  if seg = [] ∨ seg = str "." then out
  else if seg = str ".." then
    match out with
    | [] => if rooted then [] else [seg]
    | top :: below => if top = str ".." then seg :: out else below
  else seg :: out

/-- The function `filepath.Clean` on a Unix path. -/
def filepathClean (p : GoString) : GoString :=
  if p = [] then str "."
  else
    let rooted := p.head? = some 47
    let out := (splitSlash p).foldl (cleanStep rooted) []
    let body := joinSlash out.reverse
    if rooted then 47 :: body
    else if body = [] then str "." else body

/-- The function `filepath.Join`: leading empty elements are ignored, the
rest is joined with slashes and cleaned. -/
def filepathJoin : List GoString → GoString
  | [] => []
  | e :: rest => if e = [] then filepathJoin rest else filepathClean (joinSlash (e :: rest))

/-! ## `strings` and `fmt` -/

/-- The function `strings.Contains(s, substr)`. -/
def stringsContains (s sub : GoString) : Bool :=
  s.tails.any (fun t => sub.isPrefixOf t)

/-- Literal text of a format: the input must start with it; the rest of the
input is returned. -/
def matchLiteral : GoString → GoString → Option GoString
  | [], input => some input
  | _ :: _, [] => none
  | c :: lit, d :: input => if c = d then matchLiteral lit input else none

/-- The method `SkipSpace` of the scanner of `fmt.Sscanf`: white space is
dropped, a newline is an error (`none`).  The cases are the UTF-8 encodings
of the runes of the `space` table of package `fmt`: U+0009..U+000D, U+0020,
U+0085, U+00A0, U+1680, U+2000..U+200A, U+2028, U+2029, U+202F, U+205F and
U+3000. -/
def skipSpace : GoString → Option GoString
  | [] => some []
  | [a] =>
    if a = 10 then none
    else if a = 9 ∨ a = 11 ∨ a = 12 ∨ a = 13 ∨ a = 32 then some [] else some [a]
  | [a, b] =>
    if a = 10 then none
    else if a = 9 ∨ a = 11 ∨ a = 12 ∨ a = 13 ∨ a = 32 then skipSpace [b]
    else if a = 194 ∧ (b = 133 ∨ b = 160) then some []
    else some [a, b]
  | a :: b :: c :: rest =>
    if a = 10 then none
    else if a = 9 ∨ a = 11 ∨ a = 12 ∨ a = 13 ∨ a = 32 then skipSpace (b :: c :: rest)
    else if a = 194 ∧ (b = 133 ∨ b = 160) then skipSpace (c :: rest)
    else if (a = 225 ∧ b = 154 ∧ c = 128)
        ∨ (a = 226 ∧ b = 128 ∧ ((128 ≤ c.val ∧ c.val ≤ 138) ∨ c = 168 ∨ c = 169 ∨ c = 175))
        ∨ (a = 226 ∧ b = 129 ∧ c = 159)
        ∨ (a = 227 ∧ b = 128 ∧ c = 128) then skipSpace rest
    else some (a :: b :: c :: rest)

/-- ASCII decimal digit. -/
def isDigit (b : Byte) : Bool :=
  48 ≤ b.val ∧ b.val ≤ 57

/-- Value of a run of decimal digits. -/
def digitsValue (ds : GoString) : Nat :=
  ds.foldl (fun acc d => 10 * acc + (d.val - 48)) 0

/-- The verb `%d` for an `*int` operand: skip space, fail at end of input,
take an optional sign and at least one decimal digit, and fail when the number
is outside the 64-bit range.  Returns the value and the unread input. -/
def scanInt (input : GoString) : Option (Int × GoString) :=
  match skipSpace input with
  | none => none
  | some [] => none
  | some (c :: rest) =>
    let negative := decide (c = 45)
    let unsigned := if c = 43 ∨ c = 45 then rest else c :: rest
    let digits := unsigned.takeWhile isDigit
    if digits = [] then none
    else
      let v : Int := if negative then -(digitsValue digits : Int) else (digitsValue digits : Int)
      if -2 ^ 63 ≤ v ∧ v < 2 ^ 63 then some (v, unsigned.dropWhile isDigit) else none

/-- The call `fmt.Sscanf(input, "bytes=%d-%d", &rangeStart, &rangeEnd)`: the
number of operands stored, and the two variables afterwards.  An operand is
stored as soon as it is scanned; a later failure leaves the stored ones in
place.  Input left over after the second operand is not looked at. -/
def sscanfRange (input : GoString) (rangeStart rangeEnd : Int) : Nat × Int × Int :=
  match matchLiteral (str "bytes=") input with
  | none => (0, rangeStart, rangeEnd)
  | some afterLit =>
    match scanInt afterLit with
    | none => (0, rangeStart, rangeEnd)
    | some (a, afterA) =>
      match matchLiteral (str "-") afterA with
      | none => (1, a, rangeEnd)
      | some afterDash =>
        match scanInt afterDash with
        | none => (1, a, rangeEnd)
        | some (b, _) => (2, a, b)

/-! ## The program -/

/-- Source function `enableCORS`. -/
def enableCORS (w : ResponseWriter) : ResponseWriter :=
  let w := w.setHeader (str "Access-Control-Allow-Origin") (str "http://127.0.0.1:5500")
  let w := w.setHeader (str "Access-Control-Allow-Methods") (str "POST, GET, OPTIONS, PUT, DELETE")
  w.setHeader (str "Access-Control-Allow-Headers") (str "Content-Type")

/-- Source function `getFileModTime`. -/
def getFileModTime (fs : FileSystem) (filePath : GoString) : Except OsError Int :=
  match osStat fs filePath with
  | .error e => .error e
  | .ok t => .ok t

/-- Source function `getFileETag`. -/
def getFileETag (lib : Lib) (fs : FileSystem) (filePath : GoString) : GoString :=
  match osReadFile fs filePath with
  | .error _ => str ""
  | .ok data => hexEncodeToString (lib.md5Sum data).val

/-- Source function `serveFile`. -/
def serveFile (lib : Lib) (fs : FileSystem) (w : ResponseWriter) (filePath : GoString)
    (compressResponse : Bool) (rangeStart rangeEnd : Int) : ResponseWriter :=
  match osOpen fs filePath with
  | .error _ => (w.writeHeader 404).write (str "404 Not Found")
  | .ok file =>
    let file :=
      if rangeStart > 0 ∨ rangeEnd > 0 then file.seekStart lib.maxSeekOffset rangeStart
      else file
    if compressResponse then
      let w := w.setHeader (str "Content-Encoding") (str "gzip")
      if rangeEnd > 0 then
        w.write (lib.gzip (copyNData file (wrapInt64 (rangeEnd - rangeStart))))
      else
        w.write (lib.gzip (copyData file))
    else
      if rangeEnd > 0 then
        w.copyFrom (copyNData file (wrapInt64 (rangeEnd - rangeStart)))
      else
        w.copyFrom (copyData file)

/-- The path that `handleGetRequest` assigns to `filePath`; `none` is the
panic of `path[1:]` on the empty string. -/
def resolvePath (path : GoString) : Option GoString :=
  if path = str "/" then some (filepathJoin [str ".", str "index.html"])
  else
    match path with
    | [] => none
    | _ :: tail => some (filepathJoin [str ".", tail])

/-- Source function `handleGetRequest`. -/
def handleGetRequest (lib : Lib) (fs : FileSystem) (w : ResponseWriter) (path : GoString)
    (compressResponse : Bool) (rangeStart rangeEnd : Int) (headers : Header) :
    Option ResponseWriter :=
  let w := enableCORS w
  match resolvePath path with
  | none => none
  | some filePath =>
    if path ≠ str "/" ∧ isNotExist (osStat fs filePath) then
      some ((w.writeHeader 404).write (str "404 Not Found"))
    else
      let w :=
        match getFileModTime fs filePath with
        | .ok modTime => w.setHeader (str "Last-Modified") (lib.formatRFC1123 modTime)
        | .error _ => w
      let etag := getFileETag lib fs filePath
      let w := w.setHeader (str "ETag") etag
      if headers.get (str "If-None-Match") = etag then
        some (w.writeHeader 304)
      else
        some (serveFile lib fs w filePath compressResponse rangeStart rangeEnd)

/-- Source function `handlePostRequest`. -/
def handlePostRequest (w : ResponseWriter) : ResponseWriter :=
  ((enableCORS w).writeHeader 200).write (str "POST method received")

/-- Source function `handlePutRequest`. -/
def handlePutRequest (w : ResponseWriter) : ResponseWriter :=
  ((enableCORS w).writeHeader 200).write (str "PUT method received, resource replaced")

/-- Source function `handleDeleteRequest`. -/
def handleDeleteRequest (w : ResponseWriter) : ResponseWriter :=
  ((enableCORS w).writeHeader 200).write (str "DELETE method received, resource deleted")

/-- Source function `handleHeadRequest`. -/
def handleHeadRequest (w : ResponseWriter) : ResponseWriter :=
  (w.writeHeader 200).setHeader (str "Content-Type") (str "text/html")

/-- The fields of `*http.Request` that the handler reads. -/
structure Request where
  method : GoString
  path : GoString
  header : Header
deriving DecidableEq, Repr

/-- Source function `handleHTTPRequest`. -/
def handleHTTPRequest (lib : Lib) (fs : FileSystem) (w : ResponseWriter) (r : Request) :
    Option ResponseWriter :=
  let acceptEncoding := r.header.get (str "Accept-Encoding")
  let compressResponse := stringsContains acceptEncoding (str "gzip")
  let rangeHeader := r.header.get (str "Range")
  let scanned := if rangeHeader ≠ str "" then sscanfRange rangeHeader 0 0 else (0, 0, 0)
  let rangeStart := scanned.2.1
  let rangeEnd := scanned.2.2
  if r.method = str "GET" then
    handleGetRequest lib fs w r.path compressResponse rangeStart rangeEnd r.header
  else if r.method = str "POST" then some (handlePostRequest w)
  else if r.method = str "PUT" then some (handlePutRequest w)
  else if r.method = str "DELETE" then some (handleDeleteRequest w)
  else if r.method = str "HEAD" then some (handleHeadRequest w)
  else some ((w.writeHeader 405).write (str "405 Method Not Allowed"))

/-! ## Specification side: the format of a `Range` value -/

/-- UTF-8 encoding of a code point of the basic plane. -/
def utf8Encode (r : Nat) : GoString :=
  if r < 128 then [Fin.ofNat r]
  else if r < 2048 then [Fin.ofNat (192 + r / 64), Fin.ofNat (128 + r % 64)]
  else [Fin.ofNat (224 + r / 4096), Fin.ofNat (128 + r / 64 % 64), Fin.ofNat (128 + r % 64)]

/-- The code points that package `fmt` takes for white space (its `space`
table: U+0009..U+000D, U+0020, U+0085, U+00A0, U+1680, U+2000..U+200A, U+2028,
U+2029, U+202F, U+205F, U+3000), without the newline U+000A. -/
def spaceRunes : List Nat :=
  [0x09, 0x0b, 0x0c, 0x0d, 0x20, 0x85, 0xa0, 0x1680, 0x2000, 0x2001, 0x2002, 0x2003, 0x2004,
    0x2005, 0x2006, 0x2007, 0x2008, 0x2009, 0x200a, 0x2028, 0x2029, 0x202f, 0x205f, 0x3000]

/-- A run of white space that holds no newline. -/
inductive Blank : GoString → Prop where
  | nil : Blank []
  | cons (r : Nat) (rest : GoString) : r ∈ spaceRunes → Blank rest →
      Blank (utf8Encode r ++ rest)

/-- Value of a run of decimal digits, the most significant one first. -/
def decimalValue (digits : GoString) : Nat :=
  Nat.ofDigits 10 (digits.reverse.map (fun d => d.val - 48))

/-- The input starts with the text of an integer of value `v`, and `unread`
follows it: optional white space without newline, an optional sign, one or
more decimal digits up to the first byte that is no digit, and a value that a
64-bit integer holds. -/
def StartsWithInt (input : GoString) (v : Int) (unread : GoString) : Prop :=
  ∃ blank sign digits,
    input = blank ++ (sign ++ (digits ++ unread))
    ∧ Blank blank
    ∧ ((sign = [] ∧ v = (decimalValue digits : Int))
        ∨ (sign = str "+" ∧ v = (decimalValue digits : Int))
        ∨ (sign = str "-" ∧ v = -(decimalValue digits : Int)))
    ∧ digits ≠ []
    ∧ (∀ d ∈ digits, 48 ≤ d.val ∧ d.val ≤ 57)
    ∧ (∀ d, unread.head? = some d → ¬ (48 ≤ d.val ∧ d.val ≤ 57))
    ∧ -2 ^ 63 ≤ v ∧ v < 2 ^ 63

/-- The value starts with `bytes=<int>`: the literal text `bytes=`, then an
integer of value `v`, then `unread`. -/
def StartsWithBytesInt (value : GoString) (v : Int) (unread : GoString) : Prop :=
  ∃ input, value = str "bytes=" ++ input ∧ StartsWithInt input v unread

/-- The value matches the format `bytes=<int>-<int>`; what follows the second
integer is free. -/
def MatchesRangeFormat (value : GoString) : Prop :=
  ∃ a afterA b afterB input,
    StartsWithBytesInt value a afterA ∧ afterA = str "-" ++ input ∧ StartsWithInt input b afterB

/-! ## Specification side: the window of a range -/

/-- What the specification says the body of a range request is made of, for a
file of content `content`: the window starts at `rangeStart` when a range was
requested (`rangeStart > 0` or `rangeEnd > 0`) and the file system accepts
that offset, and at the start of the file otherwise; when an end offset was
given (`rangeEnd > 0`) it has `rangeEnd - rangeStart` bytes (a 64-bit
difference; no byte when it is not positive), cut at the end of the file, and
otherwise it runs to the end of the file. -/
def rangeWindow (maxOffset : Nat) (content : GoString) (rangeStart rangeEnd : Int) : GoString :=
  let start : Nat :=
    if (0 < rangeStart ∨ 0 < rangeEnd) ∧ 0 ≤ rangeStart ∧ rangeStart ≤ (maxOffset : Int) then
      rangeStart.toNat
    else 0
  if 0 < rangeEnd then (content.drop start).take (wrapInt64 (rangeEnd - rangeStart)).toNat
  else content.drop start

/-! ## Containment in the served directory -/

/-- Walk of the elements of a relative path, `depth` directories below the
served root: empty and `.` elements stay in place, `..` climbs one level and
an ordinary element descends one.  The result is false when the walk climbs
above the root. -/
def staysBelow : List GoString → Nat → Bool
  | [], _ => true
  | seg :: rest, depth =>
    if seg = [] ∨ seg = str "." then staysBelow rest depth
    else if seg = str ".." then
      match depth with
      | 0 => false
      | d + 1 => staysBelow rest d
    else staysBelow rest (depth + 1)

/-- A path that names a location inside the served root: it is relative and
its walk from the root never climbs above the root. -/
def insideRoot (p : GoString) : Bool :=
  decide (p.head? ≠ some 47) && staysBelow (splitSlash p) 0

/-! ## Sample data, for running the model on concrete requests -/

/-- A stand-in for the library functions: a 16-byte checksum in place of MD5,
a two-byte frame in place of the gzip stream, and a constant date; the seek
limit is that of ext4. -/
def sampleLib : Lib :=
  { maxSeekOffset := 17592186040320
    md5Sum := fun d =>
      ⟨(List.range 16).map (fun i => Fin.ofNat ((d.map Fin.val).sum + d.length + i)), by simp⟩
    gzip := fun d => 31 :: 139 :: d
    formatRFC1123 := fun _ => str "Thu, 01 Jan 1970 00:00:00 UTC" }

/-- Inverse of the frame of `sampleLib.gzip`. -/
def sampleGunzip (z : GoString) : Option GoString :=
  match z with
  | a :: b :: d => if a = 31 ∧ b = 139 then some d else none
  | _ => none

/-- A served directory with one ten-byte file `data.txt`, next to a file
`secret` in the parent directory.  A path that goes through `data.txt` as if
it were a directory fails with `ENOTDIR`. -/
def sampleFs : FileSystem := fun name =>
  if name = str "data.txt" then .found (.regular (str "0123456789") 0 true)
  else if name = str "../secret" then .found (.regular (str "top secret") 0 true)
  else if (str "data.txt/").isPrefixOf name then .failure
  else .notExist

/-- A file system without any file. -/
def emptyFs : FileSystem := fun _ => .notExist

/-! ## Facts about the response writer -/

@[simp] theorem setHeader_wroteHeader (w : ResponseWriter) (k v : GoString) :
    (w.setHeader k v).wroteHeader = w.wroteHeader := rfl

@[simp] theorem setHeader_body (w : ResponseWriter) (k v : GoString) :
    (w.setHeader k v).body = w.body := rfl

@[simp] theorem setHeader_status (w : ResponseWriter) (k v : GoString) :
    (w.setHeader k v).status = w.status := rfl

@[simp] theorem setHeader_header (w : ResponseWriter) (k v : GoString) :
    (w.setHeader k v).header = w.header.set k v := rfl

@[simp] theorem enableCORS_wroteHeader (w : ResponseWriter) :
    (enableCORS w).wroteHeader = w.wroteHeader := rfl

@[simp] theorem enableCORS_body (w : ResponseWriter) :
    (enableCORS w).body = w.body := rfl

theorem writeHeader_fresh (w : ResponseWriter) (code : Nat) (hw : w.wroteHeader = false) :
    w.writeHeader code =
      { w with wroteHeader := true, status := code, sentHeader := w.header } := by
  simp [ResponseWriter.writeHeader, hw]

/-- A response that has not started and gets no byte goes out as an empty 200. -/
theorem finish_fresh (w : ResponseWriter) (hw : w.wroteHeader = false) :
    w.finish = { status := 200, header := w.header, body := w.body } := by
  simp [ResponseWriter.finish, ResponseWriter.writeHeader, hw]

/-- A first `Write` on a response that has not started: status 200, current headers. -/
theorem finish_write_fresh (w : ResponseWriter) (data : GoString) (hw : w.wroteHeader = false) :
    (w.write data).finish = { status := 200, header := w.header, body := w.body ++ data } := by
  simp [ResponseWriter.finish, ResponseWriter.write, ResponseWriter.writeHeader, hw,
    bodyAllowedForStatus]

/-- Copying into a response that has not started. -/
theorem finish_copyFrom_fresh (w : ResponseWriter) (data : GoString)
    (hw : w.wroteHeader = false) :
    (w.copyFrom data).finish = { status := 200, header := w.header, body := w.body ++ data } := by
  unfold ResponseWriter.copyFrom
  split
  · next h => simp [finish_fresh w hw, h]
  · exact finish_write_fresh w data hw

/-- The not-found answer on a response that has not started. -/
theorem finish_notFound (w : ResponseWriter) (hw : w.wroteHeader = false) :
    ((w.writeHeader 404).write (str "404 Not Found")).finish =
      { status := 404, header := w.header, body := w.body ++ str "404 Not Found" } := by
  simp [ResponseWriter.finish, ResponseWriter.write, ResponseWriter.writeHeader, hw,
    bodyAllowedForStatus]

/-- The not-modified answer on a response that has not started. -/
theorem finish_notModified (w : ResponseWriter) (hw : w.wroteHeader = false) :
    (w.writeHeader 304).finish = { status := 304, header := w.header, body := w.body } := by
  simp [ResponseWriter.finish, ResponseWriter.writeHeader, hw]

/-! ## Facts about header maps -/

theorem lookup_del_of_ne (h : Header) (k key : GoString)
    (hne : k ≠ canonicalMIMEHeaderKey key) :
    (Header.del h key).lookup k = h.lookup k := by
  induction h with
  | nil => rfl
  | cons e es ih =>
    obtain ⟨a, b⟩ := e
    by_cases ha : a = canonicalMIMEHeaderKey key
    · have hka : (k == a) = false := by
        simp only [beq_eq_false_iff_ne, ne_eq]
        rw [ha]; exact hne
      have : Header.del ((a, b) :: es) key = Header.del es key := by
        simp [Header.del, ha]
      rw [this, ih]
      simp [List.lookup, hka]
    · have : Header.del ((a, b) :: es) key = (a, b) :: Header.del es key := by
        simp [Header.del, ha]
      rw [this]
      by_cases hka : k = a
      · subst hka; simp [List.lookup]
      · have hb : (k == a) = false := by simpa using hka
        simp only [List.lookup, hb]
        exact ih

theorem lookup_del_self (h : Header) (key : GoString) :
    (Header.del h key).lookup (canonicalMIMEHeaderKey key) = none := by
  induction h with
  | nil => rfl
  | cons e es ih =>
    obtain ⟨a, b⟩ := e
    by_cases ha : a = canonicalMIMEHeaderKey key
    · have : Header.del ((a, b) :: es) key = Header.del es key := by
        simp [Header.del, ha]
      rw [this, ih]
    · have : Header.del ((a, b) :: es) key = (a, b) :: Header.del es key := by
        simp [Header.del, ha]
      rw [this]
      have hb : (canonicalMIMEHeaderKey key == a) = false := by
        simp only [beq_eq_false_iff_ne, ne_eq]
        exact fun h => ha h.symm
      simp only [List.lookup, hb]
      exact ih

theorem lookup_set_of_ne (h : Header) (k key value : GoString)
    (hne : k ≠ canonicalMIMEHeaderKey key) :
    (Header.set h key value).lookup k = h.lookup k := by
  have hb : (k == canonicalMIMEHeaderKey key) = false := by simpa using hne
  simp only [Header.set, List.lookup, hb]
  exact lookup_del_of_ne h k key hne

theorem get_set_self (h : Header) (key value : GoString) :
    (Header.set h key value).get key = value := by
  simp [Header.get, Header.set, List.lookup]

theorem get_set_of_ne (h : Header) (k key value : GoString)
    (hne : canonicalMIMEHeaderKey k ≠ canonicalMIMEHeaderKey key) :
    (Header.set h key value).get k = h.get k := by
  simp only [Header.get, lookup_set_of_ne h _ key value hne]

theorem has_set_of_ne (h : Header) (k key value : GoString)
    (hne : canonicalMIMEHeaderKey k ≠ canonicalMIMEHeaderKey key) :
    (Header.set h key value).has k = h.has k := by
  simp only [Header.has, lookup_set_of_ne h _ key value hne]

theorem get_del_of_ne (h : Header) (k key : GoString)
    (hne : canonicalMIMEHeaderKey k ≠ canonicalMIMEHeaderKey key) :
    (Header.del h key).get k = h.get k := by
  simp only [Header.get, lookup_del_of_ne h _ key hne]

theorem get_del_self (h : Header) (key : GoString) :
    (Header.del h key).get key = [] := by
  simp only [Header.get, lookup_del_self]

/-! ## Facts about the ETag -/

theorem hexEncodeToString_length (d : GoString) :
    (hexEncodeToString d).length = 2 * d.length := by
  induction d with
  | nil => rfl
  | cons b rest ih => simp [hexEncodeToString, ih]; omega

/-- The ETag of a readable regular file is the hex form of the digest of its content. -/
theorem getFileETag_regular (lib : Lib) (fs : FileSystem) (filePath content : GoString)
    (modTime : Int) (hfile : fs filePath = .found (.regular content modTime true)) :
    getFileETag lib fs filePath = hexEncodeToString (lib.md5Sum content).val := by
  simp [getFileETag, osReadFile, hfile]

/-- The ETag of a readable regular file has 32 characters; it is not the empty string. -/
theorem getFileETag_regular_ne_nil (lib : Lib) (fs : FileSystem) (filePath content : GoString)
    (modTime : Int) (hfile : fs filePath = .found (.regular content modTime true)) :
    getFileETag lib fs filePath ≠ [] := by
  rw [getFileETag_regular lib fs filePath content modTime hfile]
  intro h
  have hl := hexEncodeToString_length (lib.md5Sum content).val
  rw [h, (lib.md5Sum content).property] at hl
  simp at hl

/-! ## The handler on a readable regular file -/

/-- The response writer as `handleGetRequest` has prepared it when it reaches
the comparison of the ETag, for a path that names a node with a modification time. -/
theorem handleGetRequest_regular (lib : Lib) (fs : FileSystem) (w : ResponseWriter)
    (path filePath content : GoString) (modTime : Int) (compressResponse : Bool)
    (rangeStart rangeEnd : Int) (headers : Header)
    (hres : resolvePath path = some filePath)
    (hfile : fs filePath = .found (.regular content modTime true)) :
    handleGetRequest lib fs w path compressResponse rangeStart rangeEnd headers =
      if headers.get (str "If-None-Match") = getFileETag lib fs filePath then
        some ((((enableCORS w).setHeader (str "Last-Modified") (lib.formatRFC1123 modTime)).setHeader
          (str "ETag") (getFileETag lib fs filePath)).writeHeader 304)
      else
        some (serveFile lib fs
          (((enableCORS w).setHeader (str "Last-Modified") (lib.formatRFC1123 modTime)).setHeader
            (str "ETag") (getFileETag lib fs filePath))
          filePath compressResponse rangeStart rangeEnd) := by
  simp [handleGetRequest, hres, osStat, hfile, isNotExist, getFileModTime]

/-- The bytes `serveFile` reads from a regular file for a given range. -/
theorem serveFile_regular (lib : Lib) (fs : FileSystem) (w : ResponseWriter)
    (filePath content : GoString) (modTime : Int) (compressResponse : Bool)
    (rangeStart rangeEnd : Int)
    (hfile : fs filePath = .found (.regular content modTime true)) :
    serveFile lib fs w filePath compressResponse rangeStart rangeEnd =
      if compressResponse then
        (w.setHeader (str "Content-Encoding") (str "gzip")).write
          (lib.gzip
            (if rangeEnd > 0 then
              copyNData
                (if rangeStart > 0 ∨ rangeEnd > 0 then
                  File.seekStart { data := some content, offset := 0 } lib.maxSeekOffset
                    rangeStart
                else { data := some content, offset := 0 })
                (wrapInt64 (rangeEnd - rangeStart))
            else
              copyData
                (if rangeStart > 0 ∨ rangeEnd > 0 then
                  File.seekStart { data := some content, offset := 0 } lib.maxSeekOffset
                    rangeStart
                else { data := some content, offset := 0 })))
      else
        w.copyFrom
          (if rangeEnd > 0 then
              copyNData
                (if rangeStart > 0 ∨ rangeEnd > 0 then
                  File.seekStart { data := some content, offset := 0 } lib.maxSeekOffset
                    rangeStart
                else { data := some content, offset := 0 })
                (wrapInt64 (rangeEnd - rangeStart))
            else
              copyData
                (if rangeStart > 0 ∨ rangeEnd > 0 then
                  File.seekStart { data := some content, offset := 0 } lib.maxSeekOffset
                    rangeStart
                else { data := some content, offset := 0 })) := by
  simp only [serveFile, osOpen, hfile]
  split <;> split <;> rfl

/-- Claim C1: a GET for a path that resolves to an existing readable file with
content `content`, without compression, without range and without an
`If-None-Match` value, is answered with status 200 and a body equal to
`content`. -/
theorem C1_plain_get_returns_content (lib : Lib) (fs : FileSystem)
    (path filePath content : GoString) (modTime : Int) (headers : Header)
    (hres : resolvePath path = some filePath)
    (hfile : fs filePath = .found (.regular content modTime true))
    (hinm : headers.get (str "If-None-Match") = str "") :
    ∃ w, handleGetRequest lib fs ResponseWriter.new path false 0 0 headers = some w
      ∧ w.finish.status = 200 ∧ w.finish.body = content := by
  have hne := getFileETag_regular_ne_nil lib fs filePath content modTime hfile
  have hcond : ¬ headers.get (str "If-None-Match") = getFileETag lib fs filePath := by
    rw [hinm]; exact fun h => hne h.symm
  rw [handleGetRequest_regular lib fs _ path filePath content modTime false 0 0 headers hres hfile,
    if_neg hcond, serveFile_regular lib fs _ filePath content modTime false 0 0 hfile]
  refine ⟨_, rfl, ?_⟩
  simp only [Bool.false_eq_true, if_false, gt_iff_lt, lt_self_iff_false, or_self]
  rw [finish_copyFrom_fresh _ _ (by rfl)]
  simp [copyData, File.remaining, ResponseWriter.new]

/-- Claim C2: when the `If-None-Match` value of the request equals the ETag that
`getFileETag` computes for an existing readable file, the answer is 304 with
an empty body, whatever the compression flag and the range, and
`serveFile` is not reached: no `Content-Encoding` header is set. -/
theorem C2_matching_etag_not_modified (lib : Lib) (fs : FileSystem)
    (path filePath content : GoString) (modTime : Int) (compressResponse : Bool)
    (rangeStart rangeEnd : Int) (headers : Header)
    (hres : resolvePath path = some filePath)
    (hfile : fs filePath = .found (.regular content modTime true))
    (hinm : headers.get (str "If-None-Match") = getFileETag lib fs filePath) :
    ∃ w, handleGetRequest lib fs ResponseWriter.new path compressResponse rangeStart rangeEnd
          headers = some w
      ∧ w.finish.status = 304 ∧ w.finish.body = []
      ∧ w.header.has (str "Content-Encoding") = false
      ∧ w.finish.header.has (str "Content-Encoding") = false := by
  rw [handleGetRequest_regular lib fs _ path filePath content modTime compressResponse rangeStart
    rangeEnd headers hres hfile, if_pos hinm]
  refine ⟨_, rfl, ?_⟩
  rw [finish_notModified _ (by rfl), writeHeader_fresh _ _ (by rfl)]
  have hhas : (((enableCORS ResponseWriter.new).setHeader (str "Last-Modified")
      (lib.formatRFC1123 modTime)).setHeader (str "ETag")
      (getFileETag lib fs filePath)).header.has (str "Content-Encoding") = false := by
    rw [setHeader_header, has_set_of_ne _ _ _ _ (by decide), setHeader_header,
      has_set_of_ne _ _ _ _ (by decide)]
    decide
  exact ⟨rfl, rfl, hhas, hhas⟩

theorem has_set_self (h : Header) (key value : GoString) :
    (Header.set h key value).has key = true := by
  simp [Header.has, Header.set, List.lookup]

/-- Claim C6, as amended: a GET for a path other than `/` for which `os.Stat`
reports that the resolved file does not exist (`os.IsNotExist`) is answered
with status 404 and the body `404 Not Found`, whatever the compression flag,
the range and the request headers, and the response carries no `ETag`,
`Last-Modified` or `Content-Encoding` header.  When the file is missing but
`os.Stat` fails with another error, the early check does not fire: with a
non-empty `If-None-Match` value the answer is still 404 with the body
`404 Not Found` and without `Last-Modified` and `Content-Encoding`, but it
carries an `ETag` header, with the empty value. -/
theorem C6_missing_file_not_found (lib : Lib) (fs : FileSystem)
    (path filePath : GoString) (compressResponse : Bool) (rangeStart rangeEnd : Int)
    (headers : Header)
    (hpath : path ≠ str "/")
    (hres : resolvePath path = some filePath) :
    (fs filePath = .notExist →
      ∃ w, handleGetRequest lib fs ResponseWriter.new path compressResponse rangeStart rangeEnd
            headers = some w
        ∧ w.finish.status = 404 ∧ w.finish.body = str "404 Not Found"
        ∧ w.header.has (str "ETag") = false ∧ w.finish.header.has (str "ETag") = false
        ∧ w.header.has (str "Last-Modified") = false
        ∧ w.finish.header.has (str "Last-Modified") = false
        ∧ w.header.has (str "Content-Encoding") = false
        ∧ w.finish.header.has (str "Content-Encoding") = false)
    ∧ (fs filePath = .failure → headers.get (str "If-None-Match") ≠ str "" →
      ∃ w, handleGetRequest lib fs ResponseWriter.new path compressResponse rangeStart rangeEnd
            headers = some w
        ∧ w.finish.status = 404 ∧ w.finish.body = str "404 Not Found"
        ∧ w.finish.header.has (str "ETag") = true
        ∧ w.finish.header.get (str "ETag") = str ""
        ∧ w.finish.header.has (str "Last-Modified") = false
        ∧ w.finish.header.has (str "Content-Encoding") = false) := by
  constructor
  · intro hfile
    have hrun : handleGetRequest lib fs ResponseWriter.new path compressResponse rangeStart
        rangeEnd headers
        = some (((enableCORS ResponseWriter.new).writeHeader 404).write
            (str "404 Not Found")) := by
      simp [handleGetRequest, hres, osStat, hfile, isNotExist, hpath]
    rw [hrun]
    refine ⟨_, rfl, ?_⟩
    decide
  · intro hfile hinm
    have hetag : getFileETag lib fs filePath = str "" := by
      simp [getFileETag, osReadFile, hfile]
    have hrun : handleGetRequest lib fs ResponseWriter.new path compressResponse rangeStart
        rangeEnd headers
        = some ((((enableCORS ResponseWriter.new).setHeader (str "ETag") (str "")).writeHeader
            404).write (str "404 Not Found")) := by
      simp [handleGetRequest, hres, osStat, hfile, isNotExist, getFileModTime, hetag, hinm,
        serveFile, osOpen]
    rw [hrun]
    refine ⟨_, rfl, ?_⟩
    rw [finish_notFound _ (by rfl)]
    refine ⟨rfl, rfl, ?_, ?_, ?_, ?_⟩
    · exact has_set_self _ _ _
    · exact get_set_self _ _ _
    · show Header.has (Header.set _ _ _) _ = false
      rw [has_set_of_ne _ _ _ _ (by decide)]
      decide
    · show Header.has (Header.set _ _ _) _ = false
      rw [has_set_of_ne _ _ _ _ (by decide)]
      decide

/-! ## Ranges -/

theorem wrapInt64_of_inRange (x : Int) (hlo : -2 ^ 63 ≤ x) (hhi : x < 2 ^ 63) :
    wrapInt64 x = x := by
  unfold wrapInt64
  omega

/-- A seek to an offset that the file system accepts moves the read position there. -/
theorem seekStart_accepted (f : File) (maxOffset : Nat) (offset : Int)
    (hlo : 0 ≤ offset) (hhi : offset ≤ (maxOffset : Int)) :
    f.seekStart maxOffset offset = { f with offset := offset.toNat } := by
  have h : ¬ (offset < 0 ∨ (maxOffset : Int) < offset) := by omega
  simp [File.seekStart, h]

/-- A seek that the file system refuses leaves the read position alone. -/
theorem seekStart_refused (f : File) (maxOffset : Nat) (offset : Int)
    (h : offset < 0 ∨ (maxOffset : Int) < offset) :
    f.seekStart maxOffset offset = f := by
  simp [File.seekStart, h]

/-- Claim C10, as amended: for an existing file with content `content`, a
start offset `rangeStart > 0` and no end offset (`rangeEnd = 0`), an
uncompressed `serveFile` answers with status 200 and copies until end-of-file
from the position the seek leaves: when the file system accepts the offset,
the body is the suffix of `content` from offset `rangeStart`, empty when
`rangeStart` is at or past the end of the file; when `rangeStart` is above the
largest offset the file system accepts, the seek fails, its error is dropped
and the body is the whole of `content`. -/
theorem C10_start_only_range_serves_suffix (lib : Lib) (fs : FileSystem) (w : ResponseWriter)
    (filePath content : GoString) (modTime : Int) (rangeStart : Int)
    (hw : w.wroteHeader = false)
    (hfile : fs filePath = .found (.regular content modTime true))
    (hpos : 0 < rangeStart) :
    (serveFile lib fs w filePath false rangeStart 0).finish.status = 200
      ∧ (rangeStart ≤ (lib.maxSeekOffset : Int) →
          (serveFile lib fs w filePath false rangeStart 0).finish.body
            = w.body ++ content.drop rangeStart.toNat)
      ∧ (rangeStart ≤ (lib.maxSeekOffset : Int) → (content.length : Int) ≤ rangeStart →
          (serveFile lib fs w filePath false rangeStart 0).finish.body = w.body)
      ∧ ((lib.maxSeekOffset : Int) < rangeStart →
          (serveFile lib fs w filePath false rangeStart 0).finish.body = w.body ++ content) := by
  rw [serveFile_regular lib fs w filePath content modTime false rangeStart 0 hfile]
  simp only [Bool.false_eq_true, if_false, gt_iff_lt, lt_self_iff_false, hpos, true_or, if_true]
  rw [finish_copyFrom_fresh _ _ hw]
  refine ⟨rfl, ?_, ?_, ?_⟩
  · intro hok
    rw [seekStart_accepted _ _ _ (by omega) hok]
    rfl
  · intro hok hlen
    rw [seekStart_accepted _ _ _ (by omega) hok]
    have : content.length ≤ rangeStart.toNat := by omega
    simp [copyData, File.remaining, List.drop_of_length_le this]
  · intro hfail
    rw [seekStart_refused _ _ _ (Or.inr hfail)]
    rfl

/-- Claim C3, as amended: for an existing file with content `content` and a
range with `0 ≤ rangeStart ≤ rangeEnd` and `rangeEnd > 0`, an uncompressed GET
whose `If-None-Match` value differs from the ETag is answered with status 200.
When the file system accepts `rangeStart` as a seek offset, the body is the
bytes of `content` from offset `rangeStart` up to, not including, offset
`min rangeEnd (length content)`: exactly `rangeEnd - rangeStart` bytes when
`rangeEnd` is within the file, and the bytes up to end-of-file when it is not.
When `rangeStart` is above the largest offset the file system accepts, the
seek fails, its error is dropped, and the body is the first
`rangeEnd - rangeStart` bytes of `content` (all of it when it is shorter). -/
theorem C3_range_serves_window (lib : Lib) (fs : FileSystem)
    (path filePath content : GoString) (modTime : Int) (rangeStart rangeEnd : Int)
    (headers : Header)
    (hres : resolvePath path = some filePath)
    (hfile : fs filePath = .found (.regular content modTime true))
    (hstart : 0 ≤ rangeStart) (hle : rangeStart ≤ rangeEnd) (hend : 0 < rangeEnd)
    (hint : rangeEnd < 2 ^ 63)
    (hinm : headers.get (str "If-None-Match") ≠ getFileETag lib fs filePath) :
    ∃ w, handleGetRequest lib fs ResponseWriter.new path false rangeStart rangeEnd headers
          = some w
      ∧ w.finish.status = 200
      ∧ (rangeStart ≤ (lib.maxSeekOffset : Int) →
          w.finish.body
              = (content.take (min rangeEnd.toNat content.length)).drop rangeStart.toNat
            ∧ (rangeEnd.toNat ≤ content.length →
                w.finish.body.length = rangeEnd.toNat - rangeStart.toNat)
            ∧ (content.length < rangeEnd.toNat →
                w.finish.body = content.drop rangeStart.toNat))
      ∧ ((lib.maxSeekOffset : Int) < rangeStart →
          w.finish.body = content.take (rangeEnd.toNat - rangeStart.toNat)) := by
  rw [handleGetRequest_regular lib fs _ path filePath content modTime false rangeStart rangeEnd
    headers hres hfile, if_neg hinm,
    serveFile_regular lib fs _ filePath content modTime false rangeStart rangeEnd hfile]
  refine ⟨_, rfl, ?_⟩
  have hwrap : wrapInt64 (rangeEnd - rangeStart) = rangeEnd - rangeStart :=
    wrapInt64_of_inRange _ (by omega) (by omega)
  have hsub : (rangeEnd - rangeStart).toNat = rangeEnd.toNat - rangeStart.toNat := by omega
  simp only [Bool.false_eq_true, if_false, gt_iff_lt, hend, or_true, if_true]
  rw [finish_copyFrom_fresh _ _ (by rfl)]
  refine ⟨rfl, ?_, ?_⟩
  · intro hok
    rw [seekStart_accepted _ _ _ hstart hok]
    have hbody : ([] : GoString) ++ List.take (rangeEnd.toNat - rangeStart.toNat)
        (List.drop rangeStart.toNat content)
        = (content.take (min rangeEnd.toNat content.length)).drop rangeStart.toNat := by
      rw [List.nil_append, List.drop_take, List.take_eq_take]
      simp only [List.length_drop]
      omega
    simp only [copyNData, File.remaining, hwrap, hsub]
    refine ⟨hbody, ?_, ?_⟩
    · intro hin
      simp only [ResponseWriter.new, enableCORS_body, setHeader_body, List.nil_append,
        List.length_take, List.length_drop]
      omega
    · intro hout
      simp only [ResponseWriter.new, enableCORS_body, setHeader_body, List.nil_append]
      apply List.take_of_length_le
      simp only [List.length_drop]
      omega
  · intro hfail
    rw [seekStart_refused _ _ _ (Or.inr hfail)]
    simp only [copyNData, File.remaining, hwrap, hsub]
    rfl

/-! ## Compression -/

/-- The bytes `serveFile` reads from a regular file are the window of the range. -/
theorem servedBytes_eq_rangeWindow (maxOffset : Nat) (content : GoString)
    (rangeStart rangeEnd : Int) :
    (if rangeEnd > 0 then
        copyNData
          (if rangeStart > 0 ∨ rangeEnd > 0 then
            File.seekStart { data := some content, offset := 0 } maxOffset rangeStart
          else { data := some content, offset := 0 })
          (wrapInt64 (rangeEnd - rangeStart))
      else
        copyData
          (if rangeStart > 0 ∨ rangeEnd > 0 then
            File.seekStart { data := some content, offset := 0 } maxOffset rangeStart
          else { data := some content, offset := 0 }))
      = rangeWindow maxOffset content rangeStart rangeEnd := by
  have hfile : (if rangeStart > 0 ∨ rangeEnd > 0 then
        File.seekStart { data := some content, offset := 0 } maxOffset rangeStart
      else ({ data := some content, offset := 0 } : File))
      = { data := some content,
          offset := if (0 < rangeStart ∨ 0 < rangeEnd) ∧ 0 ≤ rangeStart
              ∧ rangeStart ≤ (maxOffset : Int) then rangeStart.toNat else 0 } := by
    by_cases hreq : rangeStart > 0 ∨ rangeEnd > 0
    · by_cases hacc : 0 ≤ rangeStart ∧ rangeStart ≤ (maxOffset : Int)
      · have hreq2 : 0 < rangeStart ∨ 0 < rangeEnd := hreq
        rw [if_pos hreq, seekStart_accepted _ _ _ hacc.1 hacc.2, if_pos ⟨hreq2, hacc⟩]
      · have hfail : rangeStart < 0 ∨ (maxOffset : Int) < rangeStart := by omega
        have hno : ¬ ((0 < rangeStart ∨ 0 < rangeEnd) ∧ 0 ≤ rangeStart
            ∧ rangeStart ≤ (maxOffset : Int)) := fun h => hacc h.2
        rw [if_pos hreq, seekStart_refused _ _ _ hfail, if_neg hno]
    · have hno : ¬ ((0 < rangeStart ∨ 0 < rangeEnd) ∧ 0 ≤ rangeStart
          ∧ rangeStart ≤ (maxOffset : Int)) := fun h => hreq h.1
      rw [if_neg hreq, if_neg hno]
  rw [hfile]
  simp only [rangeWindow, copyNData, copyData, File.remaining, gt_iff_lt]

/-- The window of an ordinary range is the slice from `rangeStart` to `rangeEnd`. -/
theorem rangeWindow_ordinary (maxOffset : Nat) (content : GoString) (rangeStart rangeEnd : Int)
    (hstart : 0 ≤ rangeStart) (hle : rangeStart ≤ rangeEnd) (hend : 0 < rangeEnd)
    (hint : rangeEnd < 2 ^ 63) (hok : rangeStart ≤ (maxOffset : Int)) :
    rangeWindow maxOffset content rangeStart rangeEnd
      = (content.take (min rangeEnd.toNat content.length)).drop rangeStart.toNat := by
  have hwrap : wrapInt64 (rangeEnd - rangeStart) = rangeEnd - rangeStart :=
    wrapInt64_of_inRange _ (by omega) (by omega)
  have hsub : (rangeEnd - rangeStart).toNat = rangeEnd.toNat - rangeStart.toNat := by omega
  have hcond : (0 < rangeStart ∨ 0 < rangeEnd) ∧ 0 ≤ rangeStart
      ∧ rangeStart ≤ (maxOffset : Int) := ⟨Or.inr hend, hstart, hok⟩
  simp only [rangeWindow, if_pos hcond, if_pos hend, hwrap, hsub]
  rw [List.drop_take, List.take_eq_take]
  simp only [List.length_drop]
  omega

/-- Claim C7: for an existing file and any range, a GET with compression whose
`If-None-Match` value differs from the ETag sets `Content-Encoding: gzip` and
writes the gzip stream of exactly the bytes that the same request without
compression writes, so that decompressing the body gives that plain body.
What is compressed is the window of the range, not the whole file: for a range
`0 ≤ rangeStart ≤ rangeEnd`, `rangeEnd > 0`, it is the slice of the content
from `rangeStart` to `min rangeEnd (length content)`, and the whole content
only when no range is given. -/
theorem C7_gzip_body_decodes_to_plain_body (lib : Lib)
    (gunzip : GoString → Option GoString) (hcodec : ∀ d, gunzip (lib.gzip d) = some d)
    (fs : FileSystem) (path filePath content : GoString) (modTime : Int)
    (rangeStart rangeEnd : Int) (headers : Header)
    (hres : resolvePath path = some filePath)
    (hfile : fs filePath = .found (.regular content modTime true))
    (hinm : headers.get (str "If-None-Match") ≠ getFileETag lib fs filePath) :
    ∃ wz wp,
      handleGetRequest lib fs ResponseWriter.new path true rangeStart rangeEnd headers = some wz
      ∧ handleGetRequest lib fs ResponseWriter.new path false rangeStart rangeEnd headers
          = some wp
      ∧ wz.finish.header.get (str "Content-Encoding") = str "gzip"
      ∧ wz.finish.body = lib.gzip wp.finish.body
      ∧ gunzip wz.finish.body = some wp.finish.body
      ∧ wp.finish.body = rangeWindow lib.maxSeekOffset content rangeStart rangeEnd
      ∧ wz.finish.body = lib.gzip (rangeWindow lib.maxSeekOffset content rangeStart rangeEnd)
      ∧ (0 ≤ rangeStart → rangeStart ≤ rangeEnd → 0 < rangeEnd → rangeEnd < 2 ^ 63 →
          rangeStart ≤ (lib.maxSeekOffset : Int) →
          wz.finish.body
            = lib.gzip
                ((content.take (min rangeEnd.toNat content.length)).drop rangeStart.toNat))
      ∧ (rangeStart = 0 → rangeEnd = 0 → wz.finish.body = lib.gzip content) := by
  rw [handleGetRequest_regular lib fs _ path filePath content modTime true rangeStart rangeEnd
    headers hres hfile, if_neg hinm,
    handleGetRequest_regular lib fs _ path filePath content modTime false rangeStart rangeEnd
    headers hres hfile, if_neg hinm,
    serveFile_regular lib fs _ filePath content modTime true rangeStart rangeEnd hfile,
    serveFile_regular lib fs _ filePath content modTime false rangeStart rangeEnd hfile]
  refine ⟨_, _, rfl, rfl, ?_⟩
  simp only [Bool.false_eq_true, if_false, if_true]
  rw [finish_write_fresh _ _ (by rfl), finish_copyFrom_fresh _ _ (by rfl),
    servedBytes_eq_rangeWindow]
  have hbody : ∀ d : GoString,
      (((enableCORS ResponseWriter.new).setHeader (str "Last-Modified")
        (lib.formatRFC1123 modTime)).setHeader (str "ETag")
        (getFileETag lib fs filePath)).body ++ d = d := fun d => rfl
  have hbodyz : ∀ d : GoString,
      ((((enableCORS ResponseWriter.new).setHeader (str "Last-Modified")
        (lib.formatRFC1123 modTime)).setHeader (str "ETag")
        (getFileETag lib fs filePath)).setHeader (str "Content-Encoding") (str "gzip")).body ++ d
        = d := fun d => rfl
  simp only [hbody, hbodyz]
  refine ⟨?_, trivial, hcodec _, trivial, trivial, ?_, ?_⟩
  · rw [setHeader_header, get_set_self]
  · intro hstart hle hend hint hok
    rw [rangeWindow_ordinary _ _ _ _ hstart hle hend hint hok]
  · intro h0 h1
    subst h0 h1
    simp [rangeWindow]

/-! ## The ETag header -/

/-- On a readable regular file every answer of `handleGetRequest` carries the
ETag of the file in its `ETag` header. -/
theorem handleGetRequest_etag_header (lib : Lib) (fs : FileSystem)
    (path filePath content : GoString) (modTime : Int) (compressResponse : Bool)
    (rangeStart rangeEnd : Int) (headers : Header)
    (hres : resolvePath path = some filePath)
    (hfile : fs filePath = .found (.regular content modTime true)) :
    ∃ w, handleGetRequest lib fs ResponseWriter.new path compressResponse rangeStart rangeEnd
          headers = some w
      ∧ w.finish.header.get (str "ETag") = getFileETag lib fs filePath := by
  rw [handleGetRequest_regular lib fs _ path filePath content modTime compressResponse rangeStart
    rangeEnd headers hres hfile]
  split
  · refine ⟨_, rfl, ?_⟩
    rw [finish_notModified _ (by rfl), setHeader_header, get_set_self]
  · refine ⟨_, rfl, ?_⟩
    rw [serveFile_regular lib fs _ filePath content modTime compressResponse rangeStart rangeEnd
      hfile]
    cases compressResponse
    · simp only [Bool.false_eq_true, if_false]
      rw [finish_copyFrom_fresh _ _ (by rfl), setHeader_header, get_set_self]
    · simp only [if_true]
      rw [finish_write_fresh _ _ (by rfl), setHeader_header,
        get_set_of_ne _ _ _ _ (by decide), setHeader_header, get_set_self]

/-- Claim C8: the ETag that `getFileETag` computes, and that `handleGetRequest`
sets as the `ETag` response header, depends on the content of the file only:
two readable files with the same content, under any names, paths and
modification times, and requested in any way, get the same ETag. -/
theorem C8_etag_depends_on_content_only (lib : Lib) (fs1 fs2 : FileSystem)
    (path1 path2 filePath1 filePath2 content : GoString) (modTime1 modTime2 : Int)
    (compress1 compress2 : Bool) (rangeStart1 rangeEnd1 rangeStart2 rangeEnd2 : Int)
    (headers1 headers2 : Header)
    (hres1 : resolvePath path1 = some filePath1)
    (hres2 : resolvePath path2 = some filePath2)
    (hfile1 : fs1 filePath1 = .found (.regular content modTime1 true))
    (hfile2 : fs2 filePath2 = .found (.regular content modTime2 true)) :
    getFileETag lib fs1 filePath1 = getFileETag lib fs2 filePath2
      ∧ ∃ w1 w2,
          handleGetRequest lib fs1 ResponseWriter.new path1 compress1 rangeStart1 rangeEnd1
            headers1 = some w1
          ∧ handleGetRequest lib fs2 ResponseWriter.new path2 compress2 rangeStart2 rangeEnd2
            headers2 = some w2
          ∧ w1.finish.header.get (str "ETag") = getFileETag lib fs1 filePath1
          ∧ w2.finish.header.get (str "ETag") = w1.finish.header.get (str "ETag") := by
  have hsame : getFileETag lib fs1 filePath1 = getFileETag lib fs2 filePath2 := by
    rw [getFileETag_regular lib fs1 filePath1 content modTime1 hfile1,
      getFileETag_regular lib fs2 filePath2 content modTime2 hfile2]
  obtain ⟨w1, hw1, he1⟩ := handleGetRequest_etag_header lib fs1 path1 filePath1 content modTime1
    compress1 rangeStart1 rangeEnd1 headers1 hres1 hfile1
  obtain ⟨w2, hw2, he2⟩ := handleGetRequest_etag_header lib fs2 path2 filePath2 content modTime2
    compress2 rangeStart2 rangeEnd2 headers2 hres2 hfile2
  exact ⟨hsame, w1, w2, hw1, hw2, he1, by rw [he2, he1, hsame]⟩

/-! ## The theorems above at concrete requests -/

/-- Claim C1 at `GET /data.txt` on the sample directory: 200 and the ten bytes of the file. -/
theorem C1_plain_get_returns_content_witness :
    resolvePath (str "/data.txt") = some (str "data.txt")
      ∧ sampleFs (str "data.txt") = .found (.regular (str "0123456789") 0 true)
      ∧ ∃ w, handleGetRequest sampleLib sampleFs ResponseWriter.new (str "/data.txt") false 0 0 []
            = some w
          ∧ w.finish.status = 200 ∧ w.finish.body = str "0123456789" :=
  ⟨by decide, by decide,
    C1_plain_get_returns_content sampleLib sampleFs (str "/data.txt") (str "data.txt")
      (str "0123456789") 0 [] (by decide) (by decide) (by decide)⟩

/-- Claim C2 at `GET /data.txt` with compression, a range and the ETag of the
file as `If-None-Match` value: 304 and no body. -/
theorem C2_matching_etag_not_modified_witness :
    Header.get [(str "If-None-Match", [getFileETag sampleLib sampleFs (str "data.txt")])]
        (str "If-None-Match") = getFileETag sampleLib sampleFs (str "data.txt")
      ∧ ∃ w, handleGetRequest sampleLib sampleFs ResponseWriter.new (str "/data.txt") true 2 5
            [(str "If-None-Match", [getFileETag sampleLib sampleFs (str "data.txt")])] = some w
          ∧ w.finish.status = 304 ∧ w.finish.body = []
          ∧ w.header.has (str "Content-Encoding") = false
          ∧ w.finish.header.has (str "Content-Encoding") = false :=
  ⟨by decide,
    C2_matching_etag_not_modified sampleLib sampleFs (str "/data.txt") (str "data.txt")
      (str "0123456789") 0 true 2 5 _ (by decide) (by decide) (by decide)⟩

/-- Claim C3, as amended, on the ten-byte sample file: `Range: bytes=2-5` gets
three bytes, from offset 2; the range from 4611686018427387904 to
4611686018427387907, whose start the file system refuses, gets the first three
bytes. -/
theorem C3_range_serves_window_witness :
    (∃ w, handleGetRequest sampleLib sampleFs ResponseWriter.new (str "/data.txt") false 2 5 []
          = some w
      ∧ w.finish.status = 200 ∧ w.finish.body = str "234" ∧ w.finish.body.length = 3)
    ∧ (∃ w, handleGetRequest sampleLib sampleFs ResponseWriter.new (str "/data.txt") false
            4611686018427387904 4611686018427387907 [] = some w
      ∧ w.finish.status = 200 ∧ w.finish.body = str "012") := by
  obtain ⟨w, hw, hstatus, hok, _⟩ :=
    C3_range_serves_window sampleLib sampleFs (str "/data.txt") (str "data.txt")
      (str "0123456789") 0 2 5 [] (by decide) (by decide) (by decide) (by decide) (by decide)
      (by decide) (by decide)
  obtain ⟨hbody, _, _⟩ := hok (by decide)
  obtain ⟨w2, hw2, hstatus2, _, hrefused⟩ :=
    C3_range_serves_window sampleLib sampleFs (str "/data.txt") (str "data.txt")
      (str "0123456789") 0 4611686018427387904 4611686018427387907 [] (by decide) (by decide)
      (by decide) (by decide) (by decide) (by decide) (by decide)
  refine ⟨⟨w, hw, hstatus, ?_, ?_⟩, ⟨w2, hw2, hstatus2, ?_⟩⟩
  · rw [hbody]; decide
  · rw [hbody]; decide
  · rw [hrefused (by decide)]; decide

/-- Claim C3 as stated fails at the range from 4611686018427387904 to
4611686018427387907 on a file system whose largest seek offset is
17592186040320: the window of the ten-byte file that the range names is empty,
the seek is refused, and the body is the first three bytes of the file. -/
theorem C3_counterexample :
    (0 : Int) ≤ 4611686018427387904
      ∧ (4611686018427387904 : Int) ≤ 4611686018427387907
      ∧ (4611686018427387907 : Int) < 2 ^ 63
      ∧ ((str "0123456789").take
            (min (4611686018427387907 : Int).toNat (str "0123456789").length)).drop
          (4611686018427387904 : Int).toNat = []
      ∧ (handleGetRequest sampleLib sampleFs ResponseWriter.new (str "/data.txt") false
            4611686018427387904 4611686018427387907 []).map
          (fun w => (w.finish.status, w.finish.body)) = some (200, str "012") := by
  decide

/-- Claim C6, as amended, on the sample directory: `GET /missing.txt`, where
`os.Stat` reports that the file does not exist, and `GET /data.txt/x` with
`If-None-Match: abc`, where `os.Stat` fails with another error. -/
theorem C6_missing_file_not_found_witness :
    str "/missing.txt" ≠ str "/"
      ∧ resolvePath (str "/missing.txt") = some (str "missing.txt")
      ∧ sampleFs (str "missing.txt") = .notExist
      ∧ (∃ w, handleGetRequest sampleLib sampleFs ResponseWriter.new (str "/missing.txt") true 0 9
            [(str "If-None-Match", [str "abc"])] = some w
          ∧ w.finish.status = 404 ∧ w.finish.body = str "404 Not Found"
          ∧ w.finish.header.has (str "ETag") = false)
      ∧ sampleFs (str "data.txt/x") = .failure
      ∧ (∃ w, handleGetRequest sampleLib sampleFs ResponseWriter.new (str "/data.txt/x") true 0 9
            [(str "If-None-Match", [str "abc"])] = some w
          ∧ w.finish.status = 404 ∧ w.finish.body = str "404 Not Found"
          ∧ w.finish.header.has (str "ETag") = true) := by
  obtain ⟨w, hw, hstatus, hbody, _, hetag, _⟩ :=
    (C6_missing_file_not_found sampleLib sampleFs (str "/missing.txt") (str "missing.txt") true
      0 9 [(str "If-None-Match", [str "abc"])] (by decide) (by decide)).1 (by decide)
  obtain ⟨w2, hw2, hstatus2, hbody2, hetag2, _⟩ :=
    (C6_missing_file_not_found sampleLib sampleFs (str "/data.txt/x") (str "data.txt/x") true
      0 9 [(str "If-None-Match", [str "abc"])] (by decide) (by decide)).2 (by decide)
      (by decide)
  exact ⟨by decide, by decide, by decide, ⟨w, hw, hstatus, hbody, hetag⟩, by decide,
    ⟨w2, hw2, hstatus2, hbody2, hetag2⟩⟩

/-- Claim C6 as stated fails at `GET /data.txt/x` on the sample directory: the
file does not exist, since `data.txt` is a regular file, but `os.Stat` fails
with `ENOTDIR`, for which `os.IsNotExist` is false.  With the header
`If-None-Match: abc` the answer is 404 with an `ETag` header; without request
headers it is 304 with an empty body. -/
theorem C6_counterexample :
    str "/data.txt/x" ≠ str "/"
      ∧ resolvePath (str "/data.txt/x") = some (str "data.txt/x")
      ∧ sampleFs (str "data.txt") = .found (.regular (str "0123456789") 0 true)
      ∧ sampleFs (str "data.txt/x") = .failure
      ∧ isNotExist (osStat sampleFs (str "data.txt/x")) = false
      ∧ (handleGetRequest sampleLib sampleFs ResponseWriter.new (str "/data.txt/x") false 0 0
            [(str "If-None-Match", [str "abc"])]).map
          (fun w => (w.finish.status, w.finish.body, w.finish.header.has (str "ETag")))
          = some (404, str "404 Not Found", true)
      ∧ (handleGetRequest sampleLib sampleFs ResponseWriter.new (str "/data.txt/x") false 0 0
            []).map
          (fun w => (w.finish.status, w.finish.body, w.finish.header.has (str "ETag")))
          = some (304, [], true) := by
  decide

/-- Claim C7 at `GET /data.txt` with range 2 to 5 on the sample directory: the
compressed body is the frame of the three-byte window `234`, not that of the
ten bytes of the file. -/
theorem C7_gzip_body_decodes_to_plain_body_witness :
    (∀ d, sampleGunzip (sampleLib.gzip d) = some d)
      ∧ ∃ wz wp,
          handleGetRequest sampleLib sampleFs ResponseWriter.new (str "/data.txt") true 2 5 []
            = some wz
          ∧ handleGetRequest sampleLib sampleFs ResponseWriter.new (str "/data.txt") false 2 5 []
            = some wp
          ∧ wz.finish.header.get (str "Content-Encoding") = str "gzip"
          ∧ wp.finish.body = str "234"
          ∧ wz.finish.body = sampleLib.gzip (str "234")
          ∧ wz.finish.body ≠ sampleLib.gzip (str "0123456789")
          ∧ sampleGunzip wz.finish.body = some (str "234") := by
  refine ⟨fun d => by simp [sampleGunzip, sampleLib], ?_⟩
  obtain ⟨wz, wp, hz, hp, henc, _, hdec, hplain, hzip, _, _⟩ :=
    C7_gzip_body_decodes_to_plain_body sampleLib sampleGunzip
      (fun d => by simp [sampleGunzip, sampleLib]) sampleFs (str "/data.txt") (str "data.txt")
      (str "0123456789") 0 2 5 [] (by decide) (by decide) (by decide)
  have hwin : rangeWindow sampleLib.maxSeekOffset (str "0123456789") 2 5 = str "234" := by
    decide
  rw [hwin] at hplain hzip
  refine ⟨wz, wp, hz, hp, henc, hplain, hzip, ?_, ?_⟩
  · rw [hzip]; decide
  · rw [hdec, hplain]

/-- Claim C8 for the sample file and a copy of it under another name and date. -/
theorem C8_etag_depends_on_content_only_witness :
    getFileETag sampleLib sampleFs (str "data.txt")
        = getFileETag sampleLib
            (fun name => if name = str "sub/copy.bin" then
              .found (.regular (str "0123456789") 86400 true) else .notExist)
            (str "sub/copy.bin")
      ∧ getFileETag sampleLib sampleFs (str "data.txt") ≠ str "" :=
  ⟨(C8_etag_depends_on_content_only sampleLib sampleFs
      (fun name => if name = str "sub/copy.bin" then
        .found (.regular (str "0123456789") 86400 true) else .notExist)
      (str "/data.txt") (str "/sub/copy.bin") (str "data.txt") (str "sub/copy.bin")
      (str "0123456789") 0 86400 false true 0 0 2 5 [] []
      (by decide) (by decide) (by decide) (by decide)).1,
    by decide⟩

/-- Claim C10, as amended, on the sample file with `rangeEnd = 0`:
`rangeStart = 4` gets the six bytes from offset 4; `rangeStart = 17592186040321`,
which the file system refuses, gets the whole file. -/
theorem C10_start_only_range_serves_suffix_witness :
    (serveFile sampleLib sampleFs ResponseWriter.new (str "data.txt") false 4 0).finish.status = 200
      ∧ (serveFile sampleLib sampleFs ResponseWriter.new (str "data.txt") false 4 0).finish.body
          = str "456789"
      ∧ (serveFile sampleLib sampleFs ResponseWriter.new (str "data.txt") false
            17592186040321 0).finish.body = str "0123456789" := by
  obtain ⟨hstatus, hbody, _⟩ :=
    C10_start_only_range_serves_suffix sampleLib sampleFs ResponseWriter.new (str "data.txt")
      (str "0123456789") 0 4 (by decide) (by decide) (by decide)
  obtain ⟨_, _, _, hrefused⟩ :=
    C10_start_only_range_serves_suffix sampleLib sampleFs ResponseWriter.new (str "data.txt")
      (str "0123456789") 0 17592186040321 (by decide) (by decide) (by decide)
  refine ⟨hstatus, ?_, ?_⟩
  · rw [hbody (by decide)]; decide
  · rw [hrefused (by decide)]; decide

/-- Claim C10 as stated fails at `rangeStart = 17592186040321` on a file
system whose largest seek offset is 17592186040320: the suffix of the
ten-byte file from that offset is empty, the seek is refused, and the body is
the whole file. -/
theorem C10_counterexample :
    (str "0123456789").drop (17592186040321 : Int).toNat = []
      ∧ (serveFile sampleLib sampleFs ResponseWriter.new (str "data.txt") false
            17592186040321 0).finish.status = 200
      ∧ (serveFile sampleLib sampleFs ResponseWriter.new (str "data.txt") false
            17592186040321 0).finish.body = str "0123456789" := by
  decide

/-! ## The default document -/

/-- When `index.html` cannot be read, the ETag is the empty string, and a
request for `/` whose `If-None-Match` value is empty or absent compares equal
to it: the handler answers 304 before it tries to open the file. -/
theorem root_unreadable_index_not_modified (lib : Lib) (fs : FileSystem)
    (compressResponse : Bool) (rangeStart rangeEnd : Int) (headers : Header)
    (hfile : fs (str "index.html") = .notExist)
    (hinm : headers.get (str "If-None-Match") = str "") :
    ∃ w, handleGetRequest lib fs ResponseWriter.new (str "/") compressResponse rangeStart
          rangeEnd headers = some w
      ∧ w.finish.status = 304 ∧ w.finish.body = [] := by
  have hres : resolvePath (str "/") = some (str "index.html") := by decide
  have hetag : getFileETag lib fs (str "index.html") = str "" := by
    simp [getFileETag, osReadFile, hfile]
  have hrun : handleGetRequest lib fs ResponseWriter.new (str "/") compressResponse rangeStart
      rangeEnd headers
      = some (((enableCORS ResponseWriter.new).setHeader (str "ETag") (str "")).writeHeader 304) := by
    simp [handleGetRequest, hres, getFileModTime, osStat, hfile, hetag, hinm]
  rw [hrun]
  exact ⟨_, rfl, by rw [finish_notModified _ (by rfl)], by rw [finish_notModified _ (by rfl)]; rfl⟩

/-- Claim C5, the code at the failing input: `GET /` without any request
header, in a directory without `index.html`, is answered 304 with an empty
body, not 404 with `404 Not Found`. -/
theorem C5_root_without_index_answers_304 :
    ∃ w, handleGetRequest sampleLib emptyFs ResponseWriter.new (str "/") false 0 0 [] = some w
      ∧ w.finish.status = 304 ∧ w.finish.body = []
      ∧ ¬ (w.finish.status = 404 ∧ w.finish.body = str "404 Not Found") := by
  obtain ⟨w, hw, hstatus, hbody⟩ :=
    root_unreadable_index_not_modified sampleLib emptyFs false 0 0 [] rfl (by decide)
  refine ⟨w, hw, hstatus, hbody, ?_⟩
  rw [hstatus]
  rintro ⟨h, _⟩
  exact absurd h (by decide)

/-! ## The `Range` header -/

/-- The answer of `handleGetRequest` depends on the request headers through
the `If-None-Match` value only. -/
theorem handleGetRequest_congr_headers (lib : Lib) (fs : FileSystem) (w : ResponseWriter)
    (path : GoString) (compressResponse : Bool) (rangeStart rangeEnd : Int)
    (headers1 headers2 : Header)
    (heq : headers1.get (str "If-None-Match") = headers2.get (str "If-None-Match")) :
    handleGetRequest lib fs w path compressResponse rangeStart rangeEnd headers1
      = handleGetRequest lib fs w path compressResponse rangeStart rangeEnd headers2 := by
  simp only [handleGetRequest, heq]

theorem utf8Encode_spaceRunes :
    spaceRunes.map utf8Encode
      = [[9], [11], [12], [13], [32], [194, 133], [194, 160], [225, 154, 128],
          [226, 128, 128], [226, 128, 129], [226, 128, 130], [226, 128, 131], [226, 128, 132],
          [226, 128, 133], [226, 128, 134], [226, 128, 135], [226, 128, 136], [226, 128, 137],
          [226, 128, 138], [226, 128, 168], [226, 128, 169], [226, 128, 175], [226, 129, 159],
          [227, 128, 128]] := by
  decide

/-- An encoded white space rune in front of a blank run gives a blank run. -/
theorem blank_of_encoding (e rest : GoString) (he : e ∈ spaceRunes.map utf8Encode)
    (hrest : Blank rest) : Blank (e ++ rest) := by
  obtain ⟨r, hr, hre⟩ := List.mem_map.mp he
  rw [← hre]
  exact Blank.cons r rest hr hrest

theorem blank_one (a : Byte) (rest : GoString)
    (ha : a = 9 ∨ a = 11 ∨ a = 12 ∨ a = 13 ∨ a = 32) (hrest : Blank rest) :
    Blank (a :: rest) := by
  have he : [a] ∈ spaceRunes.map utf8Encode := by
    rw [utf8Encode_spaceRunes]
    rcases ha with h | h | h | h | h <;> subst h <;> decide
  exact blank_of_encoding [a] rest he hrest

theorem blank_two (a b : Byte) (rest : GoString)
    (hab : a = 194 ∧ (b = 133 ∨ b = 160)) (hrest : Blank rest) :
    Blank (a :: b :: rest) := by
  have he : [a, b] ∈ spaceRunes.map utf8Encode := by
    rw [utf8Encode_spaceRunes]
    obtain ⟨ha, hb⟩ := hab
    subst ha
    rcases hb with h | h <;> subst h <;> decide
  exact blank_of_encoding [a, b] rest he hrest

theorem byte_between (c : Byte) (h : 128 ≤ c.val ∧ c.val ≤ 138) :
    c = 128 ∨ c = 129 ∨ c = 130 ∨ c = 131 ∨ c = 132 ∨ c = 133 ∨ c = 134 ∨ c = 135
      ∨ c = 136 ∨ c = 137 ∨ c = 138 := by
  obtain ⟨v, hlt⟩ := c
  have hv : v = 128 ∨ v = 129 ∨ v = 130 ∨ v = 131 ∨ v = 132 ∨ v = 133 ∨ v = 134 ∨ v = 135
      ∨ v = 136 ∨ v = 137 ∨ v = 138 := by
    have h1 : 128 ≤ v ∧ v ≤ 138 := h
    omega
  rcases hv with h1 | h1 | h1 | h1 | h1 | h1 | h1 | h1 | h1 | h1 | h1 <;> subst h1 <;>
    simp [Fin.ext_iff]

theorem blank_three (a b c : Byte) (rest : GoString)
    (habc : a = 225 ∧ b = 154 ∧ c = 128
      ∨ a = 226 ∧ b = 128 ∧ (128 ≤ c.val ∧ c.val ≤ 138 ∨ c = 168 ∨ c = 169 ∨ c = 175)
      ∨ a = 226 ∧ b = 129 ∧ c = 159 ∨ a = 227 ∧ b = 128 ∧ c = 128)
    (hrest : Blank rest) : Blank (a :: b :: c :: rest) := by
  have he : [a, b, c] ∈ spaceRunes.map utf8Encode := by
    rw [utf8Encode_spaceRunes]
    rcases habc with ⟨ha, hb, hc⟩ | ⟨ha, hb, hc⟩ | ⟨ha, hb, hc⟩ | ⟨ha, hb, hc⟩
    · subst ha hb hc; decide
    · subst ha hb
      rcases hc with hc | hc | hc | hc
      · rcases byte_between c hc with h | h | h | h | h | h | h | h | h | h | h <;>
          subst h <;> decide
      · subst hc; decide
      · subst hc; decide
      · subst hc; decide
    · subst ha hb hc; decide
    · subst ha hb hc; decide
  exact blank_of_encoding [a, b, c] rest he hrest

/-- What `skipSpace` drops is a blank run, and what it returns is the rest of the input. -/
theorem skipSpace_sound (input : GoString) :
    ∀ t, skipSpace input = some t → ∃ blank, Blank blank ∧ input = blank ++ t := by
  induction input using skipSpace.induct with
  | case1 => intro t h; simp [skipSpace] at h; exact ⟨[], Blank.nil, by simp [h]⟩
  | case2 => intro t h; simp [skipSpace] at h
  | case3 a h10 hsp =>
    intro t h
    simp [skipSpace, h10, hsp] at h
    exact ⟨[a], blank_one a [] hsp Blank.nil, by simp [← h]⟩
  | case4 a h10 hsp =>
    intro t h
    simp [skipSpace, h10, hsp] at h
    exact ⟨[], Blank.nil, by simp [← h]⟩
  | case5 b => intro t h; simp [skipSpace] at h
  | case6 a b h10 hsp ih =>
    intro t h
    simp only [skipSpace, h10, hsp, if_false, if_true] at h
    obtain ⟨blank, hb, heq⟩ := ih t h
    exact ⟨a :: blank, blank_one a blank hsp hb, by rw [List.cons_append, ← heq]⟩
  | case7 a b h10 hsp h2 =>
    intro t h
    simp [skipSpace, h10, hsp, h2] at h
    exact ⟨[a, b], blank_two a b [] h2 Blank.nil, by simp [← h]⟩
  | case8 a b h10 hsp h2 =>
    intro t h
    simp [skipSpace, h10, hsp, h2] at h
    exact ⟨[], Blank.nil, by simp [← h]⟩
  | case9 b c rest => intro t h; simp [skipSpace] at h
  | case10 a b c rest h10 hsp ih =>
    intro t h
    simp only [skipSpace, h10, hsp, if_false, if_true] at h
    obtain ⟨blank, hb, heq⟩ := ih t h
    exact ⟨a :: blank, blank_one a blank hsp hb, by rw [List.cons_append, ← heq]⟩
  | case11 a b c rest h10 hsp h2 ih =>
    intro t h
    simp only [skipSpace, h10, hsp, h2, if_false, if_true] at h
    obtain ⟨blank, hb, heq⟩ := ih t h
    exact ⟨a :: b :: blank, blank_two a b blank h2 hb, by rw [List.cons_append, List.cons_append, ← heq]⟩
  | case12 a b c rest h10 hsp h2 h3 ih =>
    intro t h
    simp only [skipSpace, h10, hsp, h2, h3, if_false, if_true] at h
    obtain ⟨blank, hb, heq⟩ := ih t h
    exact ⟨a :: b :: c :: blank, blank_three a b c blank h3 hb,
      by rw [List.cons_append, List.cons_append, List.cons_append, ← heq]⟩
  | case13 a b c rest h10 hsp h2 h3 =>
    intro t h
    simp only [skipSpace, h10, hsp, h2, h3, if_false] at h
    exact ⟨[], Blank.nil, Option.some.inj h⟩

theorem skipSpace_one (a : Byte) (t : GoString)
    (ha : a = 9 ∨ a = 11 ∨ a = 12 ∨ a = 13 ∨ a = 32) :
    skipSpace (a :: t) = skipSpace t := by
  have h10 : a ≠ 10 := by rcases ha with h | h | h | h | h <;> rw [h] <;> decide
  cases t with
  | nil => simp [skipSpace, h10, ha]
  | cons b t1 =>
    cases t1 with
    | nil => simp [skipSpace, h10, ha]
    | cons c t2 => simp [skipSpace, h10, ha]

theorem skipSpace_two (b : Byte) (t : GoString) (hb : b = 133 ∨ b = 160) :
    skipSpace (194 :: b :: t) = skipSpace t := by
  cases t with
  | nil => simp [skipSpace, hb]
  | cons c t1 => simp [skipSpace, hb]

theorem skipSpace_three (a b c : Byte) (t : GoString)
    (habc : a = 225 ∧ b = 154 ∧ c = 128
      ∨ a = 226 ∧ b = 128 ∧ (128 ≤ c.val ∧ c.val ≤ 138 ∨ c = 168 ∨ c = 169 ∨ c = 175)
      ∨ a = 226 ∧ b = 129 ∧ c = 159 ∨ a = 227 ∧ b = 128 ∧ c = 128) :
    skipSpace (a :: b :: c :: t) = skipSpace t := by
  have ha : a = 225 ∨ a = 226 ∨ a = 227 := by
    rcases habc with h | h | h | h
    · exact Or.inl h.1
    · exact Or.inr (Or.inl h.1)
    · exact Or.inr (Or.inl h.1)
    · exact Or.inr (Or.inr h.1)
  have h10 : a ≠ 10 := by rcases ha with h | h | h <;> rw [h] <;> decide
  have hsp : ¬ (a = 9 ∨ a = 11 ∨ a = 12 ∨ a = 13 ∨ a = 32) := by
    rcases ha with h | h | h <;> rw [h] <;> decide
  have h194 : ¬ (a = 194 ∧ (b = 133 ∨ b = 160)) := by
    intro h
    rcases ha with h1 | h1 | h1 <;> rw [h1] at h <;> exact absurd h.1 (by decide)
  simp only [skipSpace, h10, hsp, h194, habc, if_false, if_true]

/-- An encoded white space rune is skipped. -/
theorem skipSpace_encoding (e t : GoString) (he : e ∈ spaceRunes.map utf8Encode) :
    skipSpace (e ++ t) = skipSpace t := by
  rw [utf8Encode_spaceRunes] at he
  simp only [List.mem_cons, List.mem_singleton, List.not_mem_nil, or_false] at he
  rcases he with h | h | h | h | h | h | h | h | h | h | h | h | h | h | h | h | h | h | h | h
    | h | h | h | h <;> subst h <;>
    first
    | exact skipSpace_one _ _ (by decide)
    | exact skipSpace_two _ _ (by decide)
    | exact skipSpace_three _ _ _ _ (by decide)

/-- A blank run in front of the input is skipped. -/
theorem skipSpace_blank (blank t : GoString) (hb : Blank blank) :
    skipSpace (blank ++ t) = skipSpace t := by
  induction hb with
  | nil => rfl
  | cons r rest hr _ ih =>
    rw [List.append_assoc, skipSpace_encoding _ _ (List.mem_map.mpr ⟨r, hr, rfl⟩), ih]

/-- A sign or a digit stops the skipping of white space. -/
theorem skipSpace_token (c : Byte) (t : GoString) (hc : 43 ≤ c.val ∧ c.val ≤ 57) :
    skipSpace (c :: t) = some (c :: t) := by
  have hne : ∀ k : Byte, (k.val < 43 ∨ 57 < k.val) → c ≠ k := by
    intro k hk h
    subst h
    omega
  have h10 : c ≠ 10 := hne 10 (by decide)
  have hsp : ¬ (c = 9 ∨ c = 11 ∨ c = 12 ∨ c = 13 ∨ c = 32) := by
    intro h
    rcases h with h | h | h | h | h
    · exact hne 9 (by decide) h
    · exact hne 11 (by decide) h
    · exact hne 12 (by decide) h
    · exact hne 13 (by decide) h
    · exact hne 32 (by decide) h
  have h194 : c ≠ 194 := hne 194 (by decide)
  have h225 : c ≠ 225 := hne 225 (by decide)
  have h226 : c ≠ 226 := hne 226 (by decide)
  have h227 : c ≠ 227 := hne 227 (by decide)
  cases t with
  | nil => simp [skipSpace, h10, hsp]
  | cons b t1 =>
    cases t1 with
    | nil => simp [skipSpace, h10, hsp, h194]
    | cons d t2 => simp [skipSpace, h10, hsp, h194, h225, h226, h227]

theorem isDigit_iff (b : Byte) : isDigit b = true ↔ 48 ≤ b.val ∧ b.val ≤ 57 := by
  simp [isDigit]

theorem isDigit_false_iff (b : Byte) : isDigit b = false ↔ ¬ (48 ≤ b.val ∧ b.val ≤ 57) := by
  rw [← isDigit_iff]; simp

/-- The digits in front of a byte that is no digit are what `takeWhile` takes. -/
theorem takeWhile_digits (digits unread : GoString)
    (hd : ∀ d ∈ digits, 48 ≤ d.val ∧ d.val ≤ 57)
    (hu : ∀ d, unread.head? = some d → ¬ (48 ≤ d.val ∧ d.val ≤ 57)) :
    (digits ++ unread).takeWhile isDigit = digits
      ∧ (digits ++ unread).dropWhile isDigit = unread := by
  induction digits with
  | nil =>
    cases unread with
    | nil => exact ⟨rfl, rfl⟩
    | cons u us =>
      have hf : isDigit u = false := (isDigit_false_iff u).mpr (hu u rfl)
      simp [List.takeWhile, List.dropWhile, hf]
  | cons d ds ih =>
    have ht : isDigit d = true := (isDigit_iff d).mpr (hd d (List.mem_cons_self _ _))
    obtain ⟨h1, h2⟩ := ih (fun x hx => hd x (List.mem_cons_of_mem _ hx))
    simp [List.takeWhile, List.dropWhile, ht, h1, h2]

theorem digitsValue_foldl (digits : GoString) :
    ∀ acc : Nat, digits.foldl (fun acc d => 10 * acc + (d.val - 48)) acc
      = acc * 10 ^ digits.length + decimalValue digits := by
  induction digits with
  | nil => intro acc; simp [decimalValue]
  | cons d ds ih =>
    intro acc
    rw [List.foldl_cons, ih]
    simp only [decimalValue, List.reverse_cons, List.map_append, List.map_cons, List.map_nil,
      Nat.ofDigits_append, List.length_map, List.length_reverse, List.length_cons,
      Nat.ofDigits_singleton]
    ring

/-- The value the scanner computes is the decimal value of the digits. -/
theorem digitsValue_eq (digits : GoString) : digitsValue digits = decimalValue digits := by
  unfold digitsValue
  rw [digitsValue_foldl]
  simp

/-- The function `matchLiteral` strips exactly the literal. -/
theorem matchLiteral_eq_some (lit : GoString) :
    ∀ input unread : GoString, matchLiteral lit input = some unread ↔ input = lit ++ unread := by
  induction lit with
  | nil => intro input unread; simp [matchLiteral, eq_comm]
  | cons c lit ih =>
    intro input unread
    cases input with
    | nil => simp [matchLiteral]
    | cons d input =>
      by_cases hcd : c = d
      · subst hcd
        simp [matchLiteral, ih]
      · simp only [matchLiteral, if_neg hcd, List.cons_append, List.cons.injEq]
        constructor
        · intro h; exact absurd h (by simp)
        · intro h; exact absurd h.1.symm hcd


theorem scanInt_after_space (input : GoString) (c : Byte) (r : GoString)
    (hs : skipSpace input = some (c :: r)) :
    scanInt input
      = if List.takeWhile isDigit (if c = 43 ∨ c = 45 then r else c :: r) = [] then none
        else if -2 ^ 63 ≤ (if c = 45 then
                -(digitsValue (List.takeWhile isDigit (if c = 43 ∨ c = 45 then r else c :: r)) : Int)
              else (digitsValue (List.takeWhile isDigit (if c = 43 ∨ c = 45 then r else c :: r)) : Int))
            ∧ (if c = 45 then
                -(digitsValue (List.takeWhile isDigit (if c = 43 ∨ c = 45 then r else c :: r)) : Int)
              else (digitsValue (List.takeWhile isDigit (if c = 43 ∨ c = 45 then r else c :: r)) : Int))
              < 2 ^ 63 then
          some (if c = 45 then
                -(digitsValue (List.takeWhile isDigit (if c = 43 ∨ c = 45 then r else c :: r)) : Int)
              else (digitsValue (List.takeWhile isDigit (if c = 43 ∨ c = 45 then r else c :: r)) : Int),
            List.dropWhile isDigit (if c = 43 ∨ c = 45 then r else c :: r))
        else none := by
  unfold scanInt
  rw [hs]
  simp only [decide_eq_true_eq]

/-- The scanner takes the integer that the input starts with. -/
theorem scanInt_of_startsWithInt (input : GoString) (v : Int) (unread : GoString)
    (h : StartsWithInt input v unread) : scanInt input = some (v, unread) := by
  obtain ⟨blank, sign, digits, hin, hblank, hsign, hne, hdig, hun, hlo, hhi⟩ := h
  obtain ⟨htake, hdrop⟩ := takeWhile_digits digits unread hdig hun
  have hrange : -2 ^ 63 ≤ v ∧ v < 2 ^ 63 := ⟨hlo, hhi⟩
  have hval := digitsValue_eq digits
  rcases hsign with ⟨hs, hv⟩ | ⟨hs, hv⟩ | ⟨hs, hv⟩
  · subst hs
    cases hdigits : digits with
    | nil => exact absurd hdigits hne
    | cons d ds =>
      have hd : 48 ≤ d.val ∧ d.val ≤ 57 := hdig d (by rw [hdigits]; exact List.mem_cons_self _ _)
      have hd43 : d ≠ 43 := by intro h; subst h; omega
      have hd45 : d ≠ 45 := by intro h; subst h; omega
      have hcond : ¬ (d = 43 ∨ d = 45) := fun h => h.elim hd43 hd45
      have hskip : skipSpace input = some (d :: (ds ++ unread)) := by
        rw [hin, skipSpace_blank _ _ hblank, hdigits, List.nil_append, List.cons_append,
          skipSpace_token d _ (by omega)]
      have hu : (if d = 43 ∨ d = 45 then ds ++ unread else d :: (ds ++ unread))
          = digits ++ unread := by
        rw [if_neg hcond, hdigits, List.cons_append]
      rw [scanInt_after_space input d _ hskip, hu, htake, hdrop, if_neg hne, if_neg hd45, hval,
        ← hv, if_pos hrange]
  · subst hs
    have hplus : str "+" = [43] := by decide
    have h4345 : ¬ ((43 : Byte) = 45) := by decide
    have hcond : (43 : Byte) = 43 ∨ (43 : Byte) = 45 := Or.inl rfl
    have hskip : skipSpace input = some (43 :: (digits ++ unread)) := by
      rw [hin, skipSpace_blank _ _ hblank, hplus, List.cons_append, List.nil_append,
        skipSpace_token 43 _ (by decide)]
    rw [scanInt_after_space input 43 _ hskip, if_pos hcond, htake, hdrop,
      if_neg hne, if_neg h4345, hval, ← hv, if_pos hrange]
  · subst hs
    have hminus : str "-" = [45] := by decide
    have hcond : (45 : Byte) = 43 ∨ (45 : Byte) = 45 := Or.inr rfl
    have hskip : skipSpace input = some (45 :: (digits ++ unread)) := by
      rw [hin, skipSpace_blank _ _ hblank, hminus, List.cons_append, List.nil_append,
        skipSpace_token 45 _ (by decide)]
    rw [scanInt_after_space input 45 _ hskip, if_pos hcond, htake, hdrop,
      if_neg hne, if_pos rfl, hval, ← hv, if_pos hrange]

/-- What the scanner takes is an integer that the input starts with. -/
theorem startsWithInt_of_scanInt (input : GoString) (v : Int) (unread : GoString)
    (h : scanInt input = some (v, unread)) : StartsWithInt input v unread := by
  cases hs : skipSpace input with
  | none => simp [scanInt, hs] at h
  | some t =>
    obtain ⟨blank, hblank, hin⟩ := skipSpace_sound input t hs
    cases t with
    | nil => simp [scanInt, hs] at h
    | cons c r =>
      rw [scanInt_after_space input c r hs] at h
      have hsign : c :: r
          = (if c = 43 ∨ c = 45 then [c] else []) ++ (if c = 43 ∨ c = 45 then r else c :: r) := by
        split <;> simp
      generalize hU : (if c = 43 ∨ c = 45 then r else c :: r) = u at h hsign
      have hvalue : (if c = 45 then -(digitsValue (List.takeWhile isDigit u) : Int)
          else (digitsValue (List.takeWhile isDigit u) : Int))
          = (if c = 45 then -(decimalValue (List.takeWhile isDigit u) : Int)
          else (decimalValue (List.takeWhile isDigit u) : Int)) := by
        rw [digitsValue_eq]
      rw [hvalue] at h
      generalize hV : (if c = 45 then -(decimalValue (List.takeWhile isDigit u) : Int)
          else (decimalValue (List.takeWhile isDigit u) : Int)) = val at h
      by_cases hempty : List.takeWhile isDigit u = []
      · rw [if_pos hempty] at h
        exact absurd h (by simp)
      · rw [if_neg hempty] at h
        by_cases hrange : -2 ^ 63 ≤ val ∧ val < 2 ^ 63
        · rw [if_pos hrange] at h
          simp only [Option.some.injEq, Prod.mk.injEq] at h
          obtain ⟨hv, hu⟩ := h
          subst hv
          have hsplit := List.takeWhile_append_dropWhile isDigit u
          have hdig : ∀ d ∈ List.takeWhile isDigit u, 48 ≤ d.val ∧ d.val ≤ 57 :=
            fun d hd => (isDigit_iff d).mp (List.mem_takeWhile_imp hd)
          have hun : ∀ d, unread.head? = some d → ¬ (48 ≤ d.val ∧ d.val ≤ 57) := by
            intro d hd
            have hnot := List.head?_dropWhile_not isDigit u
            rw [hu, hd] at hnot
            exact (isDigit_false_iff d).mp hnot
          rw [hu] at hsplit
          refine ⟨blank, if c = 43 ∨ c = 45 then [c] else [], List.takeWhile isDigit u, ?_,
            hblank, ?_, hempty, hdig, hun, hrange.1, hrange.2⟩
          · rw [hin, hsign, hsplit]
          · by_cases h43 : c = 43
            · subst h43
              right; left
              have h4345 : ¬ ((43 : Byte) = 45) := by decide
              rw [if_neg h4345] at hV
              exact ⟨by decide, hV.symm⟩
            · by_cases h45 : c = 45
              · subst h45
                right; right
                rw [if_pos rfl] at hV
                exact ⟨by decide, hV.symm⟩
              · left
                have hcond : ¬ (c = 43 ∨ c = 45) := fun h => h.elim h43 h45
                rw [if_neg h45] at hV
                exact ⟨by rw [if_neg hcond], hV.symm⟩
        · rw [if_neg hrange] at h
          exact absurd h (by simp)

/-- A value that starts with `bytes=<int>` and does not match the whole format
stores one operand, the integer. -/
theorem sscanfRange_of_startsWith (value : GoString) (a : Int) (unread : GoString)
    (rangeStart rangeEnd : Int)
    (hs : StartsWithBytesInt value a unread) (hbad : ¬ MatchesRangeFormat value) :
    sscanfRange value rangeStart rangeEnd = (1, a, rangeEnd) := by
  obtain ⟨input, hvalue, hint⟩ := hs
  have h1 : matchLiteral (str "bytes=") value = some input :=
    (matchLiteral_eq_some _ _ _).mpr hvalue
  have h2 : scanInt input = some (a, unread) := scanInt_of_startsWithInt _ _ _ hint
  cases h3 : matchLiteral (str "-") unread with
  | none => simp [sscanfRange, h1, h2, h3]
  | some input2 =>
    cases h4 : scanInt input2 with
    | none => simp [sscanfRange, h1, h2, h3, h4]
    | some q =>
      obtain ⟨b, afterB⟩ := q
      exact absurd ⟨a, unread, b, afterB, input2, ⟨input, hvalue, hint⟩,
        (matchLiteral_eq_some _ _ _).mp h3, startsWithInt_of_scanInt _ _ _ h4⟩ hbad

/-- A value that matches the format stores two operands. -/
theorem sscanfRange_of_matches (value : GoString) (rangeStart rangeEnd : Int)
    (h : MatchesRangeFormat value) : (sscanfRange value rangeStart rangeEnd).1 = 2 := by
  obtain ⟨a, afterA, b, afterB, input2, ⟨input, hvalue, hint⟩, hdash, hint2⟩ := h
  have h1 : matchLiteral (str "bytes=") value = some input :=
    (matchLiteral_eq_some _ _ _).mpr hvalue
  have h2 : scanInt input = some (a, afterA) := scanInt_of_startsWithInt _ _ _ hint
  have h3 : matchLiteral (str "-") afterA = some input2 :=
    (matchLiteral_eq_some _ _ _).mpr hdash
  have h4 : scanInt input2 = some (b, afterB) := scanInt_of_startsWithInt _ _ _ hint2
  simp [sscanfRange, h1, h2, h3, h4]

/-- A value that starts with `bytes=<int>` stores at least one operand. -/
theorem sscanfRange_count_of_startsWith (value : GoString) (a : Int) (unread : GoString)
    (rangeStart rangeEnd : Int) (hs : StartsWithBytesInt value a unread) :
    (sscanfRange value rangeStart rangeEnd).1 ≠ 0 := by
  obtain ⟨input, hvalue, hint⟩ := hs
  have h1 : matchLiteral (str "bytes=") value = some input :=
    (matchLiteral_eq_some _ _ _).mpr hvalue
  have h2 : scanInt input = some (a, unread) := scanInt_of_startsWithInt _ _ _ hint
  cases h3 : matchLiteral (str "-") unread with
  | none => simp [sscanfRange, h1, h2, h3]
  | some input2 =>
    cases h4 : scanInt input2 with
    | none => simp [sscanfRange, h1, h2, h3, h4]
    | some q => simp [sscanfRange, h1, h2, h3, h4]

/-- A value that does not start with `bytes=<int>` stores no operand. -/
theorem sscanfRange_of_not_startsWith (value : GoString) (rangeStart rangeEnd : Int)
    (h : ¬ ∃ a unread, StartsWithBytesInt value a unread) :
    sscanfRange value rangeStart rangeEnd = (0, rangeStart, rangeEnd) := by
  cases h1 : matchLiteral (str "bytes=") value with
  | none => simp [sscanfRange, h1]
  | some input =>
    cases h2 : scanInt input with
    | none => simp [sscanfRange, h1, h2]
    | some p =>
      obtain ⟨a, unread⟩ := p
      exact absurd ⟨a, unread, input, (matchLiteral_eq_some _ _ _).mp h1,
        startsWithInt_of_scanInt _ _ _ h2⟩ h

/-- The scan of the empty value stores nothing, so the test for the empty
header in `handleHTTPRequest` does not change the outcome. -/
theorem scanned_range_eq (value : GoString) :
    (if value ≠ str "" then sscanfRange value 0 0 else (0, 0, 0)) = sscanfRange value 0 0 := by
  by_cases h : value = str ""
  · subst h; decide
  · rw [if_pos h]

/-- A start offset that is not positive, or that the file system refuses, with
no end offset, serves what no range serves. -/
theorem serveFile_start_refused (lib : Lib) (fs : FileSystem) (w : ResponseWriter)
    (filePath : GoString) (compressResponse : Bool) (rangeStart : Int)
    (h : rangeStart ≤ 0 ∨ (lib.maxSeekOffset : Int) < rangeStart) :
    serveFile lib fs w filePath compressResponse rangeStart 0
      = serveFile lib fs w filePath compressResponse 0 0 := by
  unfold serveFile
  cases hopen : osOpen fs filePath with
  | error e => rfl
  | ok file =>
    have hfile : (if 0 < rangeStart ∨ False then
          file.seekStart lib.maxSeekOffset rangeStart else file) = file := by
      by_cases hpos : 0 < rangeStart
      · have hlim : (lib.maxSeekOffset : Int) < rangeStart := by omega
        rw [if_pos (Or.inl hpos), seekStart_refused _ _ _ (Or.inr hlim)]
      · have hno : ¬ (0 < rangeStart ∨ False) := by simp [hpos]
        rw [if_neg hno]
    simp only [gt_iff_lt, lt_self_iff_false, or_self, if_false, hfile]

/-- The answer of `handleGetRequest` depends on the range through `serveFile` only. -/
theorem handleGetRequest_congr_range (lib : Lib) (fs : FileSystem) (w : ResponseWriter)
    (path : GoString) (compressResponse : Bool) (start1 end1 start2 end2 : Int)
    (headers : Header)
    (h : ∀ (w1 : ResponseWriter) (filePath : GoString),
      serveFile lib fs w1 filePath compressResponse start1 end1
        = serveFile lib fs w1 filePath compressResponse start2 end2) :
    handleGetRequest lib fs w path compressResponse start1 end1 headers
      = handleGetRequest lib fs w path compressResponse start2 end2 headers := by
  simp only [handleGetRequest, h]

/-- What `handleHTTPRequest` does with a GET request. -/
theorem handleHTTPRequest_get (lib : Lib) (fs : FileSystem) (w : ResponseWriter) (r : Request)
    (hget : r.method = str "GET") :
    handleHTTPRequest lib fs w r
      = handleGetRequest lib fs w r.path
          (stringsContains (r.header.get (str "Accept-Encoding")) (str "gzip"))
          (sscanfRange (r.header.get (str "Range")) 0 0).2.1
          (sscanfRange (r.header.get (str "Range")) 0 0).2.2 r.header := by
  simp only [handleHTTPRequest, scanned_range_eq, hget, if_true]

/-- A request whose range has no effect in `serveFile` is answered as the same
request without `Range` header. -/
theorem handleHTTPRequest_without_range (lib : Lib) (fs : FileSystem) (w : ResponseWriter)
    (r : Request)
    (hend : (sscanfRange (r.header.get (str "Range")) 0 0).2.2 = 0)
    (hstart : (sscanfRange (r.header.get (str "Range")) 0 0).2.1 ≤ 0
      ∨ (lib.maxSeekOffset : Int) < (sscanfRange (r.header.get (str "Range")) 0 0).2.1) :
    handleHTTPRequest lib fs w r
      = handleHTTPRequest lib fs w { r with header := r.header.del (str "Range") } := by
  have hdel : (Header.del r.header (str "Range")).get (str "Range") = str "" :=
    get_del_self r.header (str "Range")
  have haccept : (Header.del r.header (str "Range")).get (str "Accept-Encoding")
      = r.header.get (str "Accept-Encoding") := get_del_of_ne r.header _ _ (by decide)
  have hinm : (Header.del r.header (str "Range")).get (str "If-None-Match")
      = r.header.get (str "If-None-Match") := get_del_of_ne r.header _ _ (by decide)
  have hzero : sscanfRange (str "") 0 0 = (0, 0, 0) := by decide
  simp only [handleHTTPRequest, scanned_range_eq, hdel, haccept, hzero, hend]
  split
  · rw [handleGetRequest_congr_headers lib fs w _ _ _ _ r.header
      (Header.del r.header (str "Range")) hinm.symm]
    exact handleGetRequest_congr_range lib fs w _ _ _ _ _ _ _
      (fun w1 filePath => serveFile_start_refused lib fs w1 filePath _ _ hstart)
  · rfl

/-- A start offset that the file system accepts, with no end offset, serves
the suffix of a regular file from that offset. -/
theorem serveFile_suffix (lib : Lib) (fs : FileSystem) (w : ResponseWriter)
    (filePath content : GoString) (modTime : Int) (rangeStart : Int)
    (hw : w.wroteHeader = false)
    (hfile : fs filePath = .found (.regular content modTime true))
    (hpos : 0 < rangeStart) (hok : rangeStart ≤ (lib.maxSeekOffset : Int)) :
    (serveFile lib fs w filePath false rangeStart 0).finish
      = { status := 200, header := w.header, body := w.body ++ content.drop rangeStart.toNat } := by
  rw [serveFile_regular lib fs w filePath content modTime false rangeStart 0 hfile]
  simp only [Bool.false_eq_true, if_false, gt_iff_lt, lt_self_iff_false, hpos, true_or, if_true]
  rw [finish_copyFrom_fresh _ _ hw, seekStart_accepted _ _ _ (by omega) hok]
  rfl

/-- Claim C4, as amended: for a `Range` value that does not match the format
`bytes=<int>-<int>`, the scan leaves `rangeEnd = 0`.  When the value does not
start with `bytes=<int>`, the scan leaves `rangeStart = 0` as well and the
response is the one given to the same request without `Range` header.  When
the value starts with `bytes=<int>`, the scan stores that integer in
`rangeStart`: the response is again the one given without `Range` header when
the integer is not positive or is above the largest offset the file system
accepts, the request is served as the range from that integer with no end
offset otherwise, and an uncompressed GET for a readable file then gets the
bytes of the file from that offset to its end. -/
theorem C4_unmatched_range_header (lib : Lib) (fs : FileSystem) (r : Request)
    (hbad : ¬ MatchesRangeFormat (r.header.get (str "Range"))) :
    (sscanfRange (r.header.get (str "Range")) 0 0).2.2 = 0
      ∧ ((¬ ∃ a unread, StartsWithBytesInt (r.header.get (str "Range")) a unread) →
          sscanfRange (r.header.get (str "Range")) 0 0 = (0, 0, 0)
          ∧ handleHTTPRequest lib fs ResponseWriter.new r
              = handleHTTPRequest lib fs ResponseWriter.new
                  { r with header := r.header.del (str "Range") })
      ∧ (∀ a unread, StartsWithBytesInt (r.header.get (str "Range")) a unread →
          sscanfRange (r.header.get (str "Range")) 0 0 = (1, a, 0)
          ∧ ((a ≤ 0 ∨ (lib.maxSeekOffset : Int) < a) →
              handleHTTPRequest lib fs ResponseWriter.new r
                = handleHTTPRequest lib fs ResponseWriter.new
                    { r with header := r.header.del (str "Range") })
          ∧ (r.method = str "GET" →
              handleHTTPRequest lib fs ResponseWriter.new r
                = handleGetRequest lib fs ResponseWriter.new r.path
                    (stringsContains (r.header.get (str "Accept-Encoding")) (str "gzip"))
                    a 0 r.header)
          ∧ (r.method = str "GET" →
              stringsContains (r.header.get (str "Accept-Encoding")) (str "gzip") = false →
              0 < a → a ≤ (lib.maxSeekOffset : Int) →
              ∀ filePath content modTime,
                resolvePath r.path = some filePath →
                fs filePath = .found (.regular content modTime true) →
                r.header.get (str "If-None-Match") ≠ getFileETag lib fs filePath →
                ∃ w, handleHTTPRequest lib fs ResponseWriter.new r = some w
                  ∧ w.finish.status = 200
                  ∧ w.finish.body = content.drop a.toNat)) := by
  have hend : (sscanfRange (r.header.get (str "Range")) 0 0).2.2 = 0 := by
    by_cases hs : ∃ a unread, StartsWithBytesInt (r.header.get (str "Range")) a unread
    · obtain ⟨a, unread, hs⟩ := hs
      rw [sscanfRange_of_startsWith _ a unread 0 0 hs hbad]
    · rw [sscanfRange_of_not_startsWith _ 0 0 hs]
  refine ⟨hend, ?_, ?_⟩
  · intro hs
    have hscan := sscanfRange_of_not_startsWith (r.header.get (str "Range")) 0 0 hs
    refine ⟨hscan, handleHTTPRequest_without_range lib fs _ r hend ?_⟩
    rw [hscan]
    exact Or.inl (le_refl _)
  · intro a unread hs
    have hscan := sscanfRange_of_startsWith (r.header.get (str "Range")) a unread 0 0 hs hbad
    have hget : r.method = str "GET" →
        handleHTTPRequest lib fs ResponseWriter.new r
          = handleGetRequest lib fs ResponseWriter.new r.path
              (stringsContains (r.header.get (str "Accept-Encoding")) (str "gzip"))
              a 0 r.header := by
      intro hm
      rw [handleHTTPRequest_get lib fs _ r hm, hscan]
    refine ⟨hscan, ?_, hget, ?_⟩
    · intro hstart
      apply handleHTTPRequest_without_range lib fs _ r hend
      rw [hscan]
      exact hstart
    · intro hm hplain hpos hok filePath content modTime hres hfile hinm
      rw [hget hm, hplain,
        handleGetRequest_regular lib fs _ r.path filePath content modTime false a 0 r.header
          hres hfile, if_neg hinm]
      refine ⟨_, rfl, ?_⟩
      rw [serveFile_suffix lib fs _ filePath content modTime a (by rfl) hfile hpos hok]
      exact ⟨rfl, rfl⟩

/-- A value for which the scan does not store two operands does not match the format. -/
theorem not_matchesRangeFormat_of_count (value : GoString)
    (h : (sscanfRange value 0 0).1 ≠ 2) : ¬ MatchesRangeFormat value :=
  fun hm => h (sscanfRange_of_matches value 0 0 hm)

/-- A value for which the scan stores no operand does not start with `bytes=<int>`. -/
theorem not_startsWith_of_count (value : GoString)
    (h : (sscanfRange value 0 0).1 = 0) : ¬ ∃ a unread, StartsWithBytesInt value a unread :=
  fun ⟨a, unread, hs⟩ => sscanfRange_count_of_startsWith value a unread 0 0 hs h

/-- The value `bytes=5-` starts with `bytes=` and the integer 5, and `-` follows. -/
theorem startsWithBytesInt_five : StartsWithBytesInt (str "bytes=5-") 5 (str "-") := by
  have h5 : str "5" = [53] := by decide
  have hdash : str "-" = [45] := by decide
  refine ⟨str "5-", by decide, [], [], str "5", by decide, Blank.nil, Or.inl ⟨rfl, by decide⟩,
    by decide, ?_, ?_, by decide, by decide⟩
  · intro d hd
    rw [h5] at hd
    rw [List.mem_singleton.mp hd]
    decide
  · intro d hd
    rw [hdash] at hd
    have hd45 : d = 45 := by simpa using hd.symm
    rw [hd45]
    decide

/-- The value `bytes=-5` starts with `bytes=` and the integer -5, and nothing follows. -/
theorem startsWithBytesInt_minus_five : StartsWithBytesInt (str "bytes=-5") (-5) [] := by
  have h5 : str "5" = [53] := by decide
  refine ⟨str "-5", by decide, [], str "-", str "5", by decide, Blank.nil,
    Or.inr (Or.inr ⟨rfl, by decide⟩), by decide, ?_, ?_, by decide, by decide⟩
  · intro d hd
    rw [h5] at hd
    rw [List.mem_singleton.mp hd]
    decide
  · intro d hd
    simp at hd

/-- Claim C4, as amended, on the sample directory: `Range: bytes=5-` does not
match the format, stores `rangeStart = 5` and gets the last five bytes of the
ten-byte file; `Range: bytes=abc` stores nothing and `Range: bytes=-5` stores
a negative start, and both get the answer of the request without the header. -/
theorem C4_unmatched_range_header_witness :
    ¬ MatchesRangeFormat (str "bytes=5-")
      ∧ sscanfRange (str "bytes=5-") 0 0 = (1, 5, 0)
      ∧ (∃ w, handleHTTPRequest sampleLib sampleFs ResponseWriter.new
              { method := str "GET", path := str "/data.txt",
                header := [(str "Range", [str "bytes=5-"])] } = some w
            ∧ w.finish.status = 200 ∧ w.finish.body = str "56789")
      ∧ sscanfRange (str "bytes=abc") 0 0 = (0, 0, 0)
      ∧ handleHTTPRequest sampleLib sampleFs ResponseWriter.new
            { method := str "GET", path := str "/data.txt",
              header := [(str "Range", [str "bytes=abc"])] }
          = handleHTTPRequest sampleLib sampleFs ResponseWriter.new
            { method := str "GET", path := str "/data.txt", header := [] }
      ∧ sscanfRange (str "bytes=-5") 0 0 = (1, -5, 0)
      ∧ handleHTTPRequest sampleLib sampleFs ResponseWriter.new
            { method := str "GET", path := str "/data.txt",
              header := [(str "Range", [str "bytes=-5"])] }
          = handleHTTPRequest sampleLib sampleFs ResponseWriter.new
            { method := str "GET", path := str "/data.txt", header := [] } := by
  have hbad5 : ¬ MatchesRangeFormat (str "bytes=5-") :=
    not_matchesRangeFormat_of_count _ (by decide)
  have hbadabc : ¬ MatchesRangeFormat (str "bytes=abc") :=
    not_matchesRangeFormat_of_count _ (by decide)
  have hbadneg : ¬ MatchesRangeFormat (str "bytes=-5") :=
    not_matchesRangeFormat_of_count _ (by decide)
  obtain ⟨_, _, h5⟩ := C4_unmatched_range_header sampleLib sampleFs
    { method := str "GET", path := str "/data.txt", header := [(str "Range", [str "bytes=5-"])] }
    hbad5
  obtain ⟨hscan5, _, _, hbody5⟩ := h5 5 (str "-") startsWithBytesInt_five
  obtain ⟨w, hw, hstatus, hbody⟩ := hbody5 rfl (by decide) (by decide) (by decide)
    (str "data.txt") (str "0123456789") 0 (by decide) (by decide) (by decide)
  obtain ⟨_, habc, _⟩ := C4_unmatched_range_header sampleLib sampleFs
    { method := str "GET", path := str "/data.txt", header := [(str "Range", [str "bytes=abc"])] }
    hbadabc
  obtain ⟨hscanabc, hsameabc⟩ := habc (not_startsWith_of_count _ (by decide))
  obtain ⟨_, _, hneg⟩ := C4_unmatched_range_header sampleLib sampleFs
    { method := str "GET", path := str "/data.txt", header := [(str "Range", [str "bytes=-5"])] }
    hbadneg
  obtain ⟨hscanneg, hsameneg, _, _⟩ := hneg (-5) [] startsWithBytesInt_minus_five
  exact ⟨hbad5, hscan5, ⟨w, hw, hstatus, by rw [hbody]; decide⟩, hscanabc, hsameabc, hscanneg,
    hsameneg (Or.inl (by decide))⟩

/-- Claim C4 as stated fails at `Range: bytes=5-`: the value does not match the
format (one operand is stored), yet `rangeStart` is 5, and the body for the
ten-byte sample file is its last five bytes, not the full file that the same
request without `Range` header gets. -/
theorem C4_counterexample :
    sscanfRange (str "bytes=5-") 0 0 = (1, 5, 0)
      ∧ sscanfRange (str "bytes=5-abc") 0 0 = (1, 5, 0)
      ∧ (handleHTTPRequest sampleLib sampleFs ResponseWriter.new
            { method := str "GET", path := str "/data.txt",
              header := [(str "Range", [str "bytes=5-"])] }).map
          (fun w => w.finish.body) = some (str "56789")
      ∧ (handleHTTPRequest sampleLib sampleFs ResponseWriter.new
            { method := str "GET", path := str "/data.txt", header := [] }).map
          (fun w => w.finish.body) = some (str "0123456789") := by
  decide

/-! ## Path elements -/

theorem splitSlash_ne_nil (s : GoString) : splitSlash s ≠ [] := by
  induction s with
  | nil => simp [splitSlash]
  | cons c rest ih =>
    unfold splitSlash
    split
    · simp
    · split <;> simp

theorem splitSlash_cons_slash (s : GoString) : splitSlash (47 :: s) = [] :: splitSlash s := by
  simp [splitSlash]

theorem splitSlash_cons_of_ne (c : Byte) (s : GoString) (hc : c ≠ 47) :
    ∃ seg segs, splitSlash s = seg :: segs ∧ splitSlash (c :: s) = (c :: seg) :: segs := by
  cases h : splitSlash s with
  | nil => exact absurd h (splitSlash_ne_nil s)
  | cons seg segs =>
    refine ⟨seg, segs, rfl, ?_⟩
    simp [splitSlash, hc, h]

theorem splitSlash_append_slash (e s : GoString) (he : ∀ b ∈ e, b ≠ 47) :
    splitSlash (e ++ 47 :: s) = e :: splitSlash s := by
  induction e with
  | nil => exact splitSlash_cons_slash s
  | cons c rest ih =>
    have hc : c ≠ 47 := he c (List.mem_cons_self _ _)
    have hrest : ∀ b ∈ rest, b ≠ 47 := fun b hb => he b (List.mem_cons_of_mem _ hb)
    obtain ⟨seg, segs, h1, h2⟩ := splitSlash_cons_of_ne c (rest ++ 47 :: s) hc
    rw [List.cons_append, h2]
    rw [ih hrest] at h1
    injection h1 with h3 h4
    rw [← h3, ← h4]

theorem splitSlash_of_noSlash (e : GoString) (he : ∀ b ∈ e, b ≠ 47) : splitSlash e = [e] := by
  induction e with
  | nil => rfl
  | cons c rest ih =>
    have hc : c ≠ 47 := he c (List.mem_cons_self _ _)
    have hrest : ∀ b ∈ rest, b ≠ 47 := fun b hb => he b (List.mem_cons_of_mem _ hb)
    obtain ⟨seg, segs, h1, h2⟩ := splitSlash_cons_of_ne c rest hc
    rw [h2]
    rw [ih hrest] at h1
    injection h1 with h3 h4
    rw [← h3, ← h4]

theorem splitSlash_joinSlash (l : List GoString) (hl : l ≠ [])
    (h : ∀ e ∈ l, ∀ b ∈ e, b ≠ 47) : splitSlash (joinSlash l) = l := by
  induction l with
  | nil => exact absurd rfl hl
  | cons e rest ih =>
    cases rest with
    | nil => exact splitSlash_of_noSlash e (h e (List.mem_cons_self _ _))
    | cons e2 rest2 =>
      have hstep : joinSlash (e :: e2 :: rest2) = e ++ 47 :: joinSlash (e2 :: rest2) := rfl
      rw [hstep, splitSlash_append_slash e _ (h e (List.mem_cons_self _ _)),
        ih (by simp) (fun x hx => h x (List.mem_cons_of_mem _ hx))]

theorem noSlash_of_mem_splitSlash (s : GoString) :
    ∀ e ∈ splitSlash s, ∀ b ∈ e, b ≠ 47 := by
  induction s with
  | nil =>
    intro e he b hb
    simp [splitSlash] at he
    subst he
    simp at hb
  | cons c rest ih =>
    by_cases hc : c = 47
    · subst hc
      rw [splitSlash_cons_slash]
      intro e he b hb
      rcases List.mem_cons.mp he with h | h
      · subst h; simp at hb
      · exact ih e h b hb
    · obtain ⟨seg, segs, h1, h2⟩ := splitSlash_cons_of_ne c rest hc
      rw [h2]
      rw [h1] at ih
      intro e he b hb
      rcases List.mem_cons.mp he with h | h
      · subst h
        rcases List.mem_cons.mp hb with hb1 | hb1
        · rw [hb1]; exact hc
        · exact ih seg (List.mem_cons_self _ _) b hb1
      · exact ih e (List.mem_cons_of_mem _ h) b hb

/-- The first byte of a joined list is the first byte of its first element. -/
theorem joinSlash_head (e : GoString) (rest : List GoString) (he : e ≠ []) :
    (joinSlash (e :: rest)).head? = e.head? := by
  cases e with
  | nil => exact absurd rfl he
  | cons c cs =>
    cases rest with
    | nil => rfl
    | cons e2 rest2 => rfl

/-! ## The scan of `filepath.Clean` on a relative path -/

theorem cleanStep_skip (rooted : Bool) (out : List GoString) (seg : GoString)
    (h : seg = [] ∨ seg = str ".") : cleanStep rooted out seg = out := by
  simp [cleanStep, h]

theorem cleanStep_push (rooted : Bool) (out : List GoString) (seg : GoString)
    (h1 : seg ≠ []) (h2 : seg ≠ str ".") (h3 : seg ≠ str "..") :
    cleanStep rooted out seg = seg :: out := by
  simp [cleanStep, h1, h2, h3]

theorem cleanStep_dotdot_nil : cleanStep false [] (str "..") = [str ".."] := by
  decide

theorem cleanStep_dotdot_cons (rooted : Bool) (top : GoString) (below : List GoString) :
    cleanStep rooted (top :: below) (str "..")
      = if top = str ".." then str ".." :: top :: below else below := by
  have h1 : str ".." ≠ [] := by decide
  have h2 : str ".." ≠ str "." := by decide
  simp [cleanStep, h1, h2]

theorem staysBelow_skip (seg : GoString) (rest : List GoString) (depth : Nat)
    (h : seg = [] ∨ seg = str ".") :
    staysBelow (seg :: rest) depth = staysBelow rest depth := by
  simp [staysBelow, h]

theorem staysBelow_push (seg : GoString) (rest : List GoString) (depth : Nat)
    (h1 : seg ≠ []) (h2 : seg ≠ str ".") (h3 : seg ≠ str "..") :
    staysBelow (seg :: rest) depth = staysBelow rest (depth + 1) := by
  simp [staysBelow, h1, h2, h3]

theorem staysBelow_dotdot_zero (rest : List GoString) :
    staysBelow (str ".." :: rest) 0 = false := by
  have h1 : str ".." ≠ [] := by decide
  have h2 : str ".." ≠ str "." := by decide
  simp [staysBelow, h1, h2]

theorem staysBelow_dotdot_succ (rest : List GoString) (depth : Nat) :
    staysBelow (str ".." :: rest) (depth + 1) = staysBelow rest depth := by
  have h1 : str ".." ≠ [] := by decide
  have h2 : str ".." ≠ str "." := by decide
  simp [staysBelow, h1, h2]

/-- Every element written by the scan is an element that was there before or
an element of the input. -/
theorem mem_foldl_cleanStep (rooted : Bool) (segs : List GoString) :
    ∀ out : List GoString, ∀ e ∈ segs.foldl (cleanStep rooted) out, e ∈ out ∨ e ∈ segs := by
  induction segs with
  | nil => intro out e he; exact Or.inl he
  | cons seg rest ih =>
    intro out e he
    rw [List.foldl_cons] at he
    rcases ih _ e he with h | h
    · have hstep : e ∈ out ∨ e = seg := by
        unfold cleanStep at h
        split at h
        · exact Or.inl h
        · split at h
          · split at h
            · split at h
              · simp at h
              · exact Or.inr (List.mem_singleton.mp h)
            · split at h
              · rcases List.mem_cons.mp h with h5 | h5
                · exact Or.inr h5
                · exact Or.inl h5
              · exact Or.inl (List.mem_cons_of_mem _ h)
          · rcases List.mem_cons.mp h with h5 | h5
            · exact Or.inr h5
            · exact Or.inl h5
      rcases hstep with h6 | h6
      · exact Or.inl h6
      · exact Or.inr (h6 ▸ List.mem_cons_self _ _)
    · exact Or.inr (List.mem_cons_of_mem _ h)

/-- A `..` written at the bottom of the output stays there. -/
theorem foldl_cleanStep_keeps_dotdot (segs : List GoString) :
    ∀ out : List GoString, (∃ init, out = init ++ [str ".."]) →
      ∃ init, segs.foldl (cleanStep false) out = init ++ [str ".."] := by
  induction segs with
  | nil => intro out h; exact h
  | cons seg rest ih =>
    intro out h
    rw [List.foldl_cons]
    apply ih
    obtain ⟨init, hinit⟩ := h
    by_cases hskip : seg = [] ∨ seg = str "."
    · rw [cleanStep_skip _ _ _ hskip]; exact ⟨init, hinit⟩
    · have h1 : seg ≠ [] := fun h => hskip (Or.inl h)
      have h2 : seg ≠ str "." := fun h => hskip (Or.inr h)
      by_cases hdd : seg = str ".."
      · subst hdd
        cases init with
        | nil =>
          rw [hinit]
          exact ⟨[str ".."], by decide⟩
        | cons top below =>
          rw [hinit, List.cons_append, cleanStep_dotdot_cons]
          split
          · exact ⟨str ".." :: top :: below, rfl⟩
          · exact ⟨below, rfl⟩
      · rw [cleanStep_push _ _ _ h1 h2 hdd, hinit]
        exact ⟨seg :: init, rfl⟩

/-- A walk that stays below the root leaves only ordinary elements in the output. -/
theorem foldl_cleanStep_of_staysBelow (segs : List GoString) :
    ∀ out : List GoString, (∀ e ∈ out, e ≠ [] ∧ e ≠ str "." ∧ e ≠ str "..") →
      staysBelow segs out.length = true →
      ∀ e ∈ segs.foldl (cleanStep false) out, e ≠ [] ∧ e ≠ str "." ∧ e ≠ str ".." := by
  induction segs with
  | nil => intro out hout _ e he; exact hout e he
  | cons seg rest ih =>
    intro out hout hstay
    rw [List.foldl_cons]
    by_cases hskip : seg = [] ∨ seg = str "."
    · rw [cleanStep_skip _ _ _ hskip]
      rw [staysBelow_skip _ _ _ hskip] at hstay
      exact ih out hout hstay
    · have h1 : seg ≠ [] := fun h => hskip (Or.inl h)
      have h2 : seg ≠ str "." := fun h => hskip (Or.inr h)
      by_cases hdd : seg = str ".."
      · subst hdd
        cases out with
        | nil =>
          rw [List.length_nil, staysBelow_dotdot_zero] at hstay
          exact absurd hstay (by decide)
        | cons top below =>
          have htop : top ≠ str ".." := (hout top (List.mem_cons_self _ _)).2.2
          rw [cleanStep_dotdot_cons, if_neg htop]
          rw [List.length_cons, staysBelow_dotdot_succ] at hstay
          exact ih below (fun e he => hout e (List.mem_cons_of_mem _ he)) hstay
      · rw [cleanStep_push _ _ _ h1 h2 hdd]
        rw [staysBelow_push _ _ _ h1 h2 hdd] at hstay
        apply ih (seg :: out) _ hstay
        intro e he
        rcases List.mem_cons.mp he with h | h
        · rw [h]; exact ⟨h1, h2, hdd⟩
        · exact hout e h

/-- A walk that climbs above the root leaves a `..` at the bottom of the output. -/
theorem foldl_cleanStep_of_climbs (segs : List GoString) :
    ∀ out : List GoString, (∀ e ∈ out, e ≠ [] ∧ e ≠ str "." ∧ e ≠ str "..") →
      staysBelow segs out.length = false →
      ∃ init, segs.foldl (cleanStep false) out = init ++ [str ".."] := by
  induction segs with
  | nil => intro out _ hstay; simp [staysBelow] at hstay
  | cons seg rest ih =>
    intro out hout hstay
    rw [List.foldl_cons]
    by_cases hskip : seg = [] ∨ seg = str "."
    · rw [cleanStep_skip _ _ _ hskip]
      rw [staysBelow_skip _ _ _ hskip] at hstay
      exact ih out hout hstay
    · have h1 : seg ≠ [] := fun h => hskip (Or.inl h)
      have h2 : seg ≠ str "." := fun h => hskip (Or.inr h)
      by_cases hdd : seg = str ".."
      · subst hdd
        cases out with
        | nil =>
          rw [cleanStep_dotdot_nil]
          exact foldl_cleanStep_keeps_dotdot rest _ ⟨[], rfl⟩
        | cons top below =>
          have htop : top ≠ str ".." := (hout top (List.mem_cons_self _ _)).2.2
          rw [cleanStep_dotdot_cons, if_neg htop]
          rw [List.length_cons, staysBelow_dotdot_succ] at hstay
          exact ih below (fun e he => hout e (List.mem_cons_of_mem _ he)) hstay
      · rw [cleanStep_push _ _ _ h1 h2 hdd]
        rw [staysBelow_push _ _ _ h1 h2 hdd] at hstay
        apply ih (seg :: out) _ hstay
        intro e he
        rcases List.mem_cons.mp he with h | h
        · rw [h]; exact ⟨h1, h2, hdd⟩
        · exact hout e h

/-- A list of ordinary elements descends only. -/
theorem staysBelow_of_ordinary (l : List GoString) :
    ∀ depth : Nat, (∀ e ∈ l, e ≠ [] ∧ e ≠ str "." ∧ e ≠ str "..") →
      staysBelow l depth = true := by
  induction l with
  | nil => intro _ _; rfl
  | cons seg rest ih =>
    intro depth h
    obtain ⟨h1, h2, h3⟩ := h seg (List.mem_cons_self _ _)
    rw [staysBelow_push _ _ _ h1 h2 h3]
    exact ih _ (fun e he => h e (List.mem_cons_of_mem _ he))

/-- A list without `..` element never climbs. -/
theorem staysBelow_of_no_dotdot (l : List GoString) :
    ∀ depth : Nat, str ".." ∉ l → staysBelow l depth = true := by
  induction l with
  | nil => intro _ _; rfl
  | cons seg rest ih =>
    intro depth h
    have hseg : seg ≠ str ".." := fun hs => h (hs ▸ List.mem_cons_self _ _)
    have hrest : str ".." ∉ rest := fun hr => h (List.mem_cons_of_mem _ hr)
    by_cases hskip : seg = [] ∨ seg = str "."
    · rw [staysBelow_skip _ _ _ hskip]; exact ih _ hrest
    · have h1 : seg ≠ [] := fun h => hskip (Or.inl h)
      have h2 : seg ≠ str "." := fun h => hskip (Or.inr h)
      rw [staysBelow_push _ _ _ h1 h2 hseg]; exact ih _ hrest

/-! ## Resolution of the request path -/

theorem resolvePath_cons (c : Byte) (tail : GoString) (h : c :: tail ≠ str "/") :
    resolvePath (c :: tail) = some (filepathClean (46 :: 47 :: tail)) := by
  have hdot : str "." = [46] := by decide
  simp only [resolvePath, if_neg h, filepathJoin, hdot]
  simp [joinSlash]

theorem filepathClean_relative (tail : GoString) :
    filepathClean (46 :: 47 :: tail)
      = if joinSlash ((splitSlash tail).foldl (cleanStep false) []).reverse = [] then str "."
        else joinSlash ((splitSlash tail).foldl (cleanStep false) []).reverse := by
  have hsplit : splitSlash (46 :: 47 :: tail) = [46] :: splitSlash tail :=
    splitSlash_append_slash [46] tail
      (fun b hb => by rw [List.mem_singleton.mp hb]; decide)
  have hskip : cleanStep false [] [46] = [] := by decide
  have hhead : ¬ ((46 : Byte) = 47) := by decide
  simp [filepathClean, hsplit, List.foldl_cons, hskip, hhead]

/-- Where the cleaned relative path points, in terms of the walk of its elements. -/
theorem insideRoot_filepathClean_relative (tail : GoString) :
    insideRoot (filepathClean (46 :: 47 :: tail)) = staysBelow (splitSlash tail) 0 := by
  rw [filepathClean_relative]
  have hmem : ∀ e ∈ ((splitSlash tail).foldl (cleanStep false) []).reverse,
      ∀ b ∈ e, b ≠ 47 := by
    intro e he b hb
    rcases mem_foldl_cleanStep false (splitSlash tail) [] e (List.mem_reverse.mp he) with h | h
    · simp at h
    · exact noSlash_of_mem_splitSlash tail e h b hb
  cases hs : staysBelow (splitSlash tail) 0 with
  | true =>
    have hord := foldl_cleanStep_of_staysBelow (splitSlash tail) [] (by simp) hs
    cases hrev : ((splitSlash tail).foldl (cleanStep false) []).reverse with
    | nil => decide
    | cons e rest =>
      rw [hrev] at hmem
      have hin : ∀ x ∈ e :: rest, x ≠ [] ∧ x ≠ str "." ∧ x ≠ str ".." := by
        intro x hx
        apply hord x
        rw [← List.mem_reverse, hrev]
        exact hx
      have he : e ≠ [] := (hin e (List.mem_cons_self _ _)).1
      have hhead := joinSlash_head e rest he
      have hne : joinSlash (e :: rest) ≠ [] := by
        intro hnil
        rw [hnil] at hhead
        cases e with
        | nil => exact he rfl
        | cons c cs => simp at hhead
      rw [if_neg hne]
      unfold insideRoot
      rw [splitSlash_joinSlash (e :: rest) (by simp) hmem, staysBelow_of_ordinary _ 0 hin, hhead]
      cases e with
      | nil => exact absurd rfl he
      | cons c cs =>
        have hc : c ≠ 47 := hmem (c :: cs) (List.mem_cons_self _ _) c (List.mem_cons_self _ _)
        simp [hc]
  | false =>
    obtain ⟨init, hinit⟩ := foldl_cleanStep_of_climbs (splitSlash tail) [] (by simp) hs
    have hrev : ((splitSlash tail).foldl (cleanStep false) []).reverse
        = str ".." :: init.reverse := by
      rw [hinit]; simp
    rw [hrev] at hmem ⊢
    have hhead := joinSlash_head (str "..") init.reverse (by decide)
    have hne : joinSlash (str ".." :: init.reverse) ≠ [] := by
      intro hnil
      rw [hnil] at hhead
      exact absurd hhead (by decide)
    rw [if_neg hne]
    unfold insideRoot
    rw [splitSlash_joinSlash _ (by simp) hmem, staysBelow_dotdot_zero]
    simp

/-- Claim C9, as amended: the path that `handleGetRequest` resolves for a
non-empty request path lies inside the served root exactly when the walk of
the elements of the request path never climbs above the root; this is so for
every request path without `..` element. -/
theorem C9_resolved_inside_root_iff (path : GoString) (hne : path ≠ []) :
    ∃ filePath, resolvePath path = some filePath
      ∧ (insideRoot filePath = true ↔ staysBelow (splitSlash (path.drop 1)) 0 = true)
      ∧ (str ".." ∉ splitSlash (path.drop 1) → insideRoot filePath = true) := by
  cases path with
  | nil => exact absurd rfl hne
  | cons c tail =>
    have hiff : ∀ filePath : GoString,
        (insideRoot filePath = true ↔ staysBelow (splitSlash tail) 0 = true) →
        (insideRoot filePath = true ↔ staysBelow (splitSlash ((c :: tail).drop 1)) 0 = true)
        ∧ (str ".." ∉ splitSlash ((c :: tail).drop 1) → insideRoot filePath = true) := by
      intro filePath h
      refine ⟨h, fun hno => h.mpr (staysBelow_of_no_dotdot _ 0 hno)⟩
    by_cases hroot : c :: tail = str "/"
    · have htail : tail = [] := by
        have : str "/" = [47] := by decide
        rw [this] at hroot
        injection hroot
      subst htail
      refine ⟨str "index.html", ?_, hiff _ ?_⟩
      · rw [hroot]; decide
      · decide
    · refine ⟨_, resolvePath_cons c tail hroot, hiff _ ?_⟩
      rw [insideRoot_filepathClean_relative]

/-- Claim C9 as stated fails at `/../secret`: the path resolves to `../secret`,
outside the served root, and the file found there is served with status 200. -/
theorem C9_counterexample :
    resolvePath (str "/../secret") = some (str "../secret")
      ∧ insideRoot (str "../secret") = false
      ∧ (handleGetRequest sampleLib sampleFs ResponseWriter.new (str "/../secret") false 0 0 []).map
          (fun w => (w.finish.status, w.finish.body)) = some (200, str "top secret") := by
  decide

/-- Claim C9, as amended, at `/sub/../data.txt`: the walk stays below the root
and the path resolves to `data.txt`, inside the root. -/
theorem C9_resolved_inside_root_iff_witness :
    str "/sub/../data.txt" ≠ []
      ∧ resolvePath (str "/sub/../data.txt") = some (str "data.txt")
      ∧ staysBelow (splitSlash ((str "/sub/../data.txt").drop 1)) 0 = true
      ∧ insideRoot (str "data.txt") = true := by
  obtain ⟨filePath, hres, hiff, _⟩ :=
    C9_resolved_inside_root_iff (str "/sub/../data.txt") (by decide)
  have hpath : filePath = str "data.txt" := by
    have h : resolvePath (str "/sub/../data.txt") = some (str "data.txt") := by decide
    rw [h] at hres
    exact (Option.some.inj hres).symm
  subst hpath
  exact ⟨by decide, hres, by decide, hiff.mpr (by decide)⟩

end FileServer
